import Mathlib

/-!
Verification development for the voice-note recording-processing pipeline.

Strings are modelled as `List Char`. JavaScript string primitives used by the
source (`split(/\s+/)`, `split('/')`, `trim()`, the regex `(.)\1{10,}`) are
translated as executable functions below; machine numbers that the claims
inspect are exact rationals or naturals.
-/

namespace VoiceFlow

/-- Shorthand: a Lean string literal as a list of characters. -/
def str (s : String) : List Char := s.data

/-! ## JavaScript string primitives -/

mutual

/-- Chunk-splitting walk of JavaScript `split(/\s+/)`: maximal whitespace
runs separate chunks, and a leading or trailing run contributes an empty
boundary chunk, as in JS. `acc` holds the reversed current chunk. -/
def splitWsAux : List Char → List Char → List (List Char)
  | [], acc => [acc.reverse]
  | c :: rest, acc =>
    if c.isWhitespace then acc.reverse :: splitWsSkip rest
    else splitWsAux rest (c :: acc)

/-- Companion of `splitWsAux`: consumes the rest of a whitespace run, then
starts the next chunk. -/
def splitWsSkip : List Char → List (List Char)
  | [] => [[]]
  | c :: rest =>
    if c.isWhitespace then splitWsSkip rest
    else splitWsAux rest [c]

end

/-- JavaScript `s.split(/\s+/)`. -/
def jsSplitWs (l : List Char) : List (List Char) := splitWsAux l []

/-- JavaScript `s.trim()` (ASCII whitespace). -/
def jsTrim (l : List Char) : List Char :=
  ((l.dropWhile Char.isWhitespace).reverse.dropWhile Char.isWhitespace).reverse

/-- JavaScript `s.split('/')`; `acc` holds the reversed current segment. -/
def splitSlashAux : List Char → List Char → List (List Char)
  | [], acc => [acc.reverse]
  | c :: rest, acc =>
    if c = '/' then acc.reverse :: splitSlashAux rest []
    else splitSlashAux rest (c :: acc)

/-- JavaScript `s.split('/')`. -/
def splitSlash (l : List Char) : List (List Char) := splitSlashAux l []

/-- JavaScript `parts[parts.length - 1]` of `s.split('/')`. -/
def lastSlashSegment (l : List Char) : List Char := (splitSlash l).getLastD []

/-- A character matched by `.` in a JavaScript regex without the `s` flag
(anything but a line terminator). -/
def dotChar (c : Char) : Bool :=
  !(c = '\n' || c = '\r' || c = Char.ofNat 0x2028 || c = Char.ofNat 0x2029)

/-- JavaScript `/(.)\1{k-1,}/.test(s)` for `k ≥ 1`: some position starts a run
of at least `k` copies of one non-line-terminator character. -/
def hasDotRun (k : Nat) : List Char → Bool
  | [] => false
  | c :: rest =>
    (dotChar c && decide (k ≤ (rest.takeWhile (· = c)).length + 1)) || hasDotRun k rest

/-! ## Transcription quality heuristic
(`TranscriptionService.assessTranscriptQuality`, src/services/transcription.ts) -/

/-- Condition of `transcript.length < 10` in `assessTranscriptQuality`. -/
def qcShort (t : List Char) : Bool := decide (t.length < 10)

/-- Condition of `/(.)\1{10,}/.test(transcript)`: an 11-long repeat run. -/
def qcRepeat (t : List Char) : Bool := hasDotRun 11 t

/-- Condition of `/^\d+$/.test(transcript.trim())`. -/
def qcNumeric (t : List Char) : Bool :=
  !(jsTrim t).isEmpty && (jsTrim t).all Char.isDigit

/-- Condition of `transcript.split(/\s+/).length < 3` (note: the source does
not filter empty chunks here, unlike the pipeline word count). -/
def qcFewWords (t : List Char) : Bool := decide ((jsSplitWs t).length < 3)

/-- Result of the quality heuristic: advisory score and issue list. -/
structure QualityAssessment where
  score : Int
  issues : List String
deriving DecidableEq, Repr

/-- Model of `TranscriptionService.assessTranscriptQuality`: starts at 100, deducts
50/20/30/25 for the four heuristics, records one issue per firing heuristic
(in source order), clamps the score at 0 (`Math.max(0, score)`). -/
def assessTranscriptQuality (t : List Char) : QualityAssessment :=
  { score := max 0 (100
      - (if qcShort t then 50 else 0)
      - (if qcRepeat t then 20 else 0)
      - (if qcNumeric t then 30 else 0)
      - (if qcFewWords t then 25 else 0)),
    issues :=
      (if qcShort t then ["Transcript is too short"] else []) ++
      (if qcRepeat t then ["Contains repeated characters (possible audio issue)"] else []) ++
      (if qcNumeric t then ["Transcript contains only numbers"] else []) ++
      (if qcFewWords t then ["Very few words detected"] else []) }

/-! ## Word counting (pipeline persistence stage) -/

/-- The pipeline word count:
`enhancedTranscript.split(/\s+/).filter(w => w.length > 0).length`. -/
def pipelineWordCount (l : List Char) : Nat :=
  ((jsSplitWs l).filter (fun w => decide (0 < w.length))).length

mutual

/-- Spec-side word count: the number of maximal nonempty runs of
non-whitespace characters (whitespace-delimited tokens). -/
def nonWsRuns : List Char → Nat
  | [] => 0
  | c :: rest =>
    if c.isWhitespace then nonWsRuns rest else 1 + nonWsRunsIn rest

/-- Companion of `nonWsRuns`: walks to the end of the current token. -/
def nonWsRunsIn : List Char → Nat
  | [] => 0
  | c :: rest =>
    if c.isWhitespace then nonWsRuns rest else nonWsRunsIn rest

end

/-! ## Data model of the processing pipeline
(src/services/export.ts `ProcessingPipeline`, src/utils/audioUtils.ts
`AudioUtils`, src/services/transcription.ts, src/services/enhancement.ts,
src/lib/supabase `uploadAudioFile`/`deleteAudioFile`). -/

/-- Model of `EnhancementStyle` (keys of `ENHANCEMENT_PROMPTS`, src/lib/openai.ts). -/
inductive EnhancementStyle
  | note | email | blog | summary | transcript | custom
deriving DecidableEq, Repr

/-- Model of the `ProcessingStage` enum. -/
inductive ProcessingStage
  | uploading | transcribing | enhancing | saving | complete | error
deriving DecidableEq, Repr

/-- Model of `ProcessingPipeline.getStageProgressRange`. -/
def getStageProgressRange : ProcessingStage → Nat × Nat
  | .uploading => (0, 25)
  | .transcribing => (25, 60)
  | .enhancing => (60, 90)
  | .saving => (90, 100)
  | .complete => (100, 100)
  | .error => (0, 0)

/-- Model of the `UploadResult` of AudioUtils (error message in place of `Error`). -/
structure UploadResult where
  path : List Char
  url : List Char
  error : Option (List Char)
deriving DecidableEq, Repr

/-- Model of the `TranscriptionResult` of TranscriptionService (the unused
processing-time field is omitted; no claim reads it). -/
structure TranscriptionResult where
  text : List Char
  language : Option (List Char)
  audioLength : Option Nat
  cost : Option ℚ
  error : Option (List Char)
deriving DecidableEq, Repr

/-- Model of the `EnhancementResult` of EnhancementService. -/
structure EnhancementResult where
  enhanced : List Char
  tokensUsed : Option Nat
  cost : Option ℚ
  style : EnhancementStyle
  error : Option (List Char)
deriving DecidableEq, Repr

/-- The record handed to `createRecording` in the persistence stage. -/
structure RecordingRow where
  user_id : List Char
  title : List Char
  audio_url : List Char
  original_transcript : List Char
  enhanced_transcript : List Char
  language : List Char
  style : EnhancementStyle
  duration : Nat
  word_count : Nat
  character_count : Nat
deriving DecidableEq, Repr

/-- Model of the `ProcessingResult` returned by `ProcessingPipeline.process`. -/
structure ProcessingResult where
  recordingId : List Char
  audioUrl : List Char
  originalTranscript : List Char
  enhancedTranscript : List Char
  language : List Char
  style : EnhancementStyle
  duration : Nat
  wordCount : Nat
  characterCount : Nat
  totalCost : ℚ
  error : Option (List Char)
deriving DecidableEq, Repr

/-- Model of `ProcessingOptions` (optional fields kept optional; the source applies
defaults of `note` style and non-premium when destructuring). -/
structure ProcessingOptions where
  userId : List Char
  recordingId : List Char
  style : Option EnhancementStyle
  language : Option (List Char)
  customPrompt : Option (List Char)
  isPremium : Option Bool
deriving Repr

/-- Outcome of one `transcribeAudio` provider call (src/lib/openai.ts). -/
structure TranscribeOut where
  text : List Char
  language : Option (List Char)
  error : Option (List Char)
deriving DecidableEq, Repr

/-- Outcome of one `enhanceTranscript` provider call (src/lib/openai.ts). -/
structure EnhanceOut where
  enhanced : List Char
  tokensUsed : Option Nat
  error : Option (List Char)
deriving DecidableEq, Repr

/-- Observable events of one pipeline run, in emission order: progress and
stage-completion callbacks, provider calls, backoff waits, the database
insert, and the compensating storage delete (with its success flag). -/
inductive Event
  | progress (stage : ProcessingStage) (pct : ℚ)
  | stageDone (stage : ProcessingStage)
  | storageUploadCall (path : List Char)
  | transcribeCall (attempt : Nat)
  | generationCall
  | insertCall (row : RecordingRow)
  | deleteCall (path : List Char) (ok : Bool)
  | waitMs (ms : Nat)
deriving DecidableEq, Repr

/-- Events local to the upload utility, before the pipeline remaps progress
percentages into the 0-25 band. -/
inductive UEv
  | prog (pct : ℚ)
  | call (path : List Char)
  | wait (ms : Nat)
deriving DecidableEq, Repr

/-- The external world of one run: local file system, storage provider,
transcription and generation providers, database, wall clock. Per-attempt
functions model calls that the retry loops repeat. -/
structure ProviderEnv where
  fileExists : Bool
  fileSize : Nat
  blobOk : Nat → Bool
  storageUpload : Nat → Option (List Char)
  urlPrefix : List Char
  tBlobOk : Nat → Bool
  transcribeProvider : Nat → TranscribeOut
  audioLengthProbe : Nat
  enhanceProvider : EnhanceOut
  insert : RecordingRow → Except (List Char) (List Char)
  deleteOk : List Char → Bool
  nowString : List Char

/-- Model of `estimateCost.whisper`: `durationInSeconds / 60 * 0.006` (exact ℚ). -/
def estimateCostWhisper (durationInSeconds : ℚ) : ℚ :=
  durationInSeconds / 60 * (6 / 1000)

/-- Model of `estimateCost.gpt4`: `inputTokens/1000*0.01 + outputTokens/1000*0.03`. -/
def estimateCostGpt4 (inputTokens outputTokens : ℚ) : ℚ :=
  inputTokens / 1000 * (1 / 100) + outputTokens / 1000 * (3 / 100)

/-- JavaScript `a || b` for an optional string (empty string is falsy). -/
def jsOrStr (a : Option (List Char)) (b : List Char) : List Char :=
  match a with
  | some s => if s = [] then b else s
  | none => b

/-! ## Upload stage (`AudioUtils.uploadToSupabase` / `uploadWithRetry`) -/

/-- One attempt of `AudioUtils.uploadToSupabase`: validate the local file
(existence, 50 MiB ceiling), convert to a payload, emit `onProgress(0)`, call
`uploadAudioFile` (which writes `{userId}/{recordingId}.m4a` and never invokes
the inner progress callback), and on success emit the final `onProgress(100)`.
All failures are caught and become an error result. Error messages keep the
fixed part of the source text; interpolated sizes are elided. -/
def uploadToSupabase (env : ProviderEnv) (userId recordingId : List Char)
    (attempt : Nat) : UploadResult × List UEv :=
  if !env.fileExists then
    ({ path := [], url := [], error := some (str "Audio file does not exist") }, [])
  else if 52428800 < env.fileSize then
    ({ path := [], url := [], error := some (str "File size exceeds maximum of 50MB") }, [])
  else if !env.blobOk attempt then
    ({ path := [], url := [], error := some (str "Failed to convert file for upload") }, [])
  else
    let filePath := userId ++ '/' :: recordingId ++ str ".m4a"
    match env.storageUpload attempt with
    | some e => ({ path := [], url := [], error := some e }, [.prog 0, .call filePath])
    | none =>
      ({ path := filePath, url := env.urlPrefix ++ '/' :: filePath, error := none },
        [.prog 0, .call filePath, .prog 100])

/-- Loop body of `AudioUtils.uploadWithRetry`: one iteration per remaining
attempt; a retry (attempt > 0) first waits `2^attempt * 1000` ms; the last
error is remembered and surfaced when attempts run out. Also returns the
number of attempts actually made. -/
def uploadRetryGo (env : ProviderEnv) (userId recordingId : List Char) :
    Nat → Nat → Option (List Char) → UploadResult × List UEv × Nat
  | _, 0, lastError =>
    ({ path := [], url := [],
       error := some (lastError.getD (str "Upload failed after retries")) }, [], 0)
  | attempt, fuel + 1, _ =>
    let waitEv : List UEv := if 0 < attempt then [.wait (2 ^ attempt * 1000)] else []
    let r := uploadToSupabase env userId recordingId attempt
    match r.1.error with
    | none => (r.1, waitEv ++ r.2, 1)
    | some e =>
      let rec2 := uploadRetryGo env userId recordingId (attempt + 1) fuel (some e)
      (rec2.1, waitEv ++ r.2 ++ rec2.2.1, 1 + rec2.2.2)

/-- Model of `AudioUtils.uploadWithRetry` (called by the pipeline with the default
`maxRetries = 3`). -/
def uploadWithRetry (env : ProviderEnv) (userId recordingId : List Char)
    (maxRetries : Nat) : UploadResult × List UEv × Nat :=
  uploadRetryGo env userId recordingId 0 maxRetries none

/-! ## Transcription stage (`TranscriptionService.transcribe` /
`transcribeWithRetry`) -/

/-- One attempt of `TranscriptionService.transcribe`: validate the local file
(existence, 25 MiB Whisper ceiling), convert to a payload, call the provider
(`transcribeAudio`); on success probe the local asset for its duration and
attach the Whisper cost estimate. All failures are caught and become an error
result with empty text. -/
def transcribe (env : ProviderEnv) (attempt : Nat) :
    TranscriptionResult × List Event :=
  if !env.fileExists then
    ({ text := [], language := none, audioLength := none, cost := none,
       error := some (str "Audio file does not exist") }, [])
  else if 26214400 < env.fileSize then
    ({ text := [], language := none, audioLength := none, cost := none,
       error := some (str "Audio file too large") }, [])
  else if !env.tBlobOk attempt then
    ({ text := [], language := none, audioLength := none, cost := none,
       error := some (str "Failed to prepare audio file for transcription") }, [])
  else
    match (env.transcribeProvider attempt).error with
    | some e =>
      ({ text := [], language := none, audioLength := none, cost := none,
         error := some e }, [.transcribeCall attempt])
    | none =>
      ({ text := (env.transcribeProvider attempt).text,
         language := (env.transcribeProvider attempt).language,
         audioLength := some env.audioLengthProbe,
         cost := some (estimateCostWhisper env.audioLengthProbe),
         error := none }, [.transcribeCall attempt])

/-- Loop body of `TranscriptionService.transcribeWithRetry`, identical retry
scheme to the upload loop. -/
def transcribeRetryGo (env : ProviderEnv) :
    Nat → Nat → Option (List Char) → TranscriptionResult × List Event × Nat
  | _, 0, lastError =>
    ({ text := [], language := none, audioLength := none, cost := none,
       error := some (lastError.getD (str "Transcription failed after retries")) }, [], 0)
  | attempt, fuel + 1, _ =>
    let waitEv : List Event := if 0 < attempt then [.waitMs (2 ^ attempt * 1000)] else []
    let r := transcribe env attempt
    match r.1.error with
    | none => (r.1, waitEv ++ r.2, 1)
    | some e =>
      let rec2 := transcribeRetryGo env (attempt + 1) fuel (some e)
      (rec2.1, waitEv ++ r.2 ++ rec2.2.1, 1 + rec2.2.2)

/-- Model of `TranscriptionService.transcribeWithRetry` (pipeline uses the default
`maxRetries = 3`). -/
def transcribeWithRetry (env : ProviderEnv) (maxRetries : Nat) :
    TranscriptionResult × List Event × Nat :=
  transcribeRetryGo env 0 maxRetries none

/-! ## Enhancement stage (`EnhancementService.enhance`) -/

/-- Options passed to `EnhancementService.enhance` by the pipeline. -/
structure EnhanceOptions where
  style : EnhancementStyle
  customPrompt : Option (List Char)
  isPremium : Bool
deriving Repr

/-- An error result of `enhance` (its catch branch). -/
def enhanceErr (style : EnhancementStyle) (msg : List Char) : EnhancementResult :=
  { enhanced := [], tokensUsed := none, cost := none, style := style, error := some msg }

/-- Model of `EnhancementService.enhance`: validates the transcript (non-blank), the
premium gate for the `custom` style, and the presence of a custom prompt,
all before the generation-provider call; then calls `enhanceTranscript`,
validates non-blank output, and estimates cost from `tokensUsed` with the
rough 60/40 input/output split (`tokensUsed` of 0 is falsy in JS, so it
yields no cost estimate). -/
def enhance (env : ProviderEnv) (transcript : List Char) (opts : EnhanceOptions) :
    EnhancementResult × List Event :=
  if jsTrim transcript = [] then
    (enhanceErr opts.style (str "Transcript is empty"), [])
  else if opts.style = .custom && !opts.isPremium then
    (enhanceErr opts.style (str "Custom prompts are only available for premium users"), [])
  else if opts.style = .custom && opts.customPrompt = none then
    (enhanceErr opts.style (str "Custom prompt is required for custom style"), [])
  else
    match (env.enhanceProvider).error with
    | some e => (enhanceErr opts.style e, [.generationCall])
    | none =>
      if jsTrim (env.enhanceProvider).enhanced = [] then
        (enhanceErr opts.style (str "Enhancement produced empty result"), [.generationCall])
      else
        ({ enhanced := (env.enhanceProvider).enhanced,
           tokensUsed := (env.enhanceProvider).tokensUsed,
           cost := match (env.enhanceProvider).tokensUsed with
             | none => none
             | some 0 => none
             | some t => some (estimateCostGpt4 ((t : ℚ) * (6 / 10)) ((t : ℚ) * (4 / 10))),
           style := opts.style, error := none }, [.generationCall])

/-! ## Pipeline orchestrator (`ProcessingPipeline.process`) -/

/-- How the pipeline remaps the upload utility events: upload-internal
percentages are scaled into the 0-25 band (`percentage / 100 * 25`). -/
def mapUploadEvent : UEv → Event
  | .prog p => .progress .uploading (p / 100 * 25)
  | .call path => .storageUploadCall path
  | .wait ms => .waitMs ms

/-- The catch branch of `process`: emit error progress/stage callbacks, run
the compensating delete when an `audioUrl` was obtained (the storage path is
rebuilt as `userId` plus the last `/`-segment of the URL; the delete outcome
is swallowed), and return the accumulated fields with zero counts and the
original error. -/
def pipelineCatch (env : ProviderEnv) (o : ProcessingOptions)
    (style : EnhancementStyle)
    (audioUrl originalTranscript enhancedTranscript detectedLanguage : List Char)
    (audioDuration : Nat) (totalCost : ℚ) (errMsg : List Char) :
    ProcessingResult × List Event :=
  let cleanupEvs : List Event :=
    if audioUrl ≠ [] then
      let filePath := o.userId ++ '/' :: lastSlashSegment audioUrl
      [.deleteCall filePath (env.deleteOk filePath)]
    else []
  ({ recordingId := o.recordingId, audioUrl := audioUrl,
     originalTranscript := originalTranscript,
     enhancedTranscript := enhancedTranscript, language := detectedLanguage,
     style := style, duration := audioDuration, wordCount := 0,
     characterCount := 0, totalCost := totalCost, error := some errMsg },
   [.progress .error 0, .stageDone .error] ++ cleanupEvs)

/-- Model of `ProcessingPipeline.process`: upload → transcribe → enhance → save, with
stage-band progress callbacks, the non-fatal enhancement fallback, counts
computed from the final transcript, and the catch branch above for every
fatal error. Returns the result together with the run trace. -/
def process (env : ProviderEnv) (o : ProcessingOptions) :
    ProcessingResult × List Event :=
  let style := o.style.getD .note
  let isPremium := (o.isPremium).getD false
  let lang0 := jsOrStr o.language (str "en")
  let ev0 : List Event := [.progress .uploading 0]
  let up := uploadWithRetry env o.userId o.recordingId 3
  let upEv := up.2.1.map mapUploadEvent
  match up.1.error with
  | some e =>
    let r := pipelineCatch env o style [] [] [] lang0 0 0 (str "Upload failed: " ++ e)
    (r.1, ev0 ++ upEv ++ r.2)
  | none =>
    let audioUrl := up.1.url
    let ev1 : List Event := [.progress .uploading 25, .stageDone .uploading,
                             .progress .transcribing 25]
    let tr := transcribeWithRetry env 3
    match tr.1.error with
    | some e =>
      let r := pipelineCatch env o style audioUrl [] [] lang0 0 0
        (str "Transcription failed: " ++ e)
      (r.1, ev0 ++ upEv ++ ev1 ++ tr.2.1 ++ r.2)
    | none =>
      if jsTrim tr.1.text = [] then
        let r := pipelineCatch env o style audioUrl [] [] lang0 0 0
          (str "Transcription produced empty result. Please try speaking louder.")
        (r.1, ev0 ++ upEv ++ ev1 ++ tr.2.1 ++ r.2)
      else
        let originalTranscript := tr.1.text
        let detectedLanguage := jsOrStr tr.1.language lang0
        let audioDuration := tr.1.audioLength.getD 0
        let cost1 : ℚ := (tr.1.cost).getD 0
        let ev2 : List Event := [.progress .transcribing 60, .stageDone .transcribing,
                                 .progress .enhancing 60]
        let en := enhance env originalTranscript
          { style := style, customPrompt := o.customPrompt, isPremium := isPremium }
        let enhancedTranscript :=
          match en.1.error with
          | some _ => originalTranscript
          | none => en.1.enhanced
        let cost2 : ℚ :=
          match en.1.error with
          | some _ => cost1
          | none => cost1 + (en.1.cost).getD 0
        let ev3 : List Event := [.progress .enhancing 90, .stageDone .enhancing,
                                 .progress .saving 90]
        let wordCount := pipelineWordCount enhancedTranscript
        let characterCount := enhancedTranscript.length
        let row : RecordingRow :=
          { user_id := o.userId, title := str "Recording " ++ env.nowString,
            audio_url := audioUrl, original_transcript := originalTranscript,
            enhanced_transcript := enhancedTranscript, language := detectedLanguage,
            style := style, duration := audioDuration, word_count := wordCount,
            character_count := characterCount }
        match env.insert row with
        | .error e =>
          let r := pipelineCatch env o style audioUrl originalTranscript
            enhancedTranscript detectedLanguage audioDuration cost2 e
          (r.1, ev0 ++ upEv ++ ev1 ++ tr.2.1 ++ ev2 ++ en.2 ++ ev3 ++
            [.insertCall row] ++ r.2)
        | .ok newId =>
          ({ recordingId := newId, audioUrl := audioUrl,
             originalTranscript := originalTranscript,
             enhancedTranscript := enhancedTranscript, language := detectedLanguage,
             style := style, duration := audioDuration, wordCount := wordCount,
             characterCount := characterCount, totalCost := cost2, error := none },
           ev0 ++ upEv ++ ev1 ++ tr.2.1 ++ ev2 ++ en.2 ++ ev3 ++
             [.insertCall row, .progress .saving 100, .stageDone .saving,
              .progress .complete 100, .stageDone .complete])

/-! ## Offline queue (`OfflineQueue`, src/services/export.ts) -/

/-- Model of `QueuedOperation` (payload abstracted to its table name). -/
structure QueuedOperation where
  id : Nat
  table : List Char
  retries : Nat
deriving DecidableEq, Repr

/-- Model of `OfflineQueue.enqueue`: append with a fresh id and zero retries. -/
def enqueueOp (queue : List QueuedOperation) (freshId : Nat) (table : List Char) :
    List QueuedOperation :=
  queue ++ [{ id := freshId, table := table, retries := 0 }]

/-- One replay pass of `OfflineQueue.syncQueue`: execute in order; a failed
operation gets its retry count incremented and is kept only while the new
count is below 3. -/
def syncQueue (exec : QueuedOperation → Bool) :
    List QueuedOperation → List QueuedOperation
  | [] => []
  | op :: rest =>
    if exec op then syncQueue exec rest
    else if op.retries + 1 < 3 then
      { op with retries := op.retries + 1 } :: syncQueue exec rest
    else syncQueue exec rest

/-! ## Trace observations -/

/-- The percentage values delivered to `onProgress`, in order. -/
def progressValues (tr : List Event) : List ℚ :=
  tr.filterMap fun e => match e with | .progress _ p => some p | _ => none

/-- The (stage, percentage) pairs delivered to `onProgress`, in order. -/
def progressEntries (tr : List Event) : List (ProcessingStage × ℚ) :=
  tr.filterMap fun e => match e with | .progress s p => some (s, p) | _ => none

/-- Number of storage-upload provider calls in a trace. -/
def countStorageCalls (tr : List Event) : Nat :=
  (tr.filter fun e => match e with | .storageUploadCall _ => true | _ => false).length

/-- Number of transcription provider calls in a trace. -/
def countTranscribeCalls (tr : List Event) : Nat :=
  (tr.filter fun e => match e with | .transcribeCall _ => true | _ => false).length

/-- Number of generation provider calls in a trace. -/
def countGenerationCalls (tr : List Event) : Nat :=
  (tr.filter fun e => match e with | .generationCall => true | _ => false).length

/-- Backoff waits (ms) of an upload-utility event list, in order. -/
def uevWaits (evs : List UEv) : List Nat :=
  evs.filterMap fun e => match e with | .wait ms => some ms | _ => none

/-- Backoff waits (ms) of a pipeline event list, in order. -/
def evWaits (evs : List Event) : List Nat :=
  evs.filterMap fun e => match e with | .waitMs ms => some ms | _ => none

/-- Progress percentages of an upload-utility event list, in order. -/
def uevProgs (evs : List UEv) : List ℚ :=
  evs.filterMap fun e => match e with | .prog p => some p | _ => none

/-! ## Abbreviations for the stage results a given run observes -/

/-- The upload-stage result of a run. -/
def upRes (env : ProviderEnv) (o : ProcessingOptions) : UploadResult :=
  (uploadWithRetry env o.userId o.recordingId 3).1

/-- The transcription-stage result of a run. -/
def trRes (env : ProviderEnv) : TranscriptionResult :=
  (transcribeWithRetry env 3).1

/-- The enhancement options the pipeline passes down. -/
def enOpts (o : ProcessingOptions) : EnhanceOptions :=
  { style := o.style.getD .note, customPrompt := o.customPrompt,
    isPremium := (o.isPremium).getD false }

/-- The enhancement-stage result of a run. -/
def enRes (env : ProviderEnv) (o : ProcessingOptions) : EnhancementResult :=
  (enhance env (trRes env).text (enOpts o)).1

/-- The final transcript after the enhancement-failure fallback. -/
def finalTranscript (env : ProviderEnv) (o : ProcessingOptions) : List Char :=
  match (enRes env o).error with
  | some _ => (trRes env).text
  | none => (enRes env o).enhanced

/-- The language the pipeline settles on. -/
def finalLanguage (env : ProviderEnv) (o : ProcessingOptions) : List Char :=
  jsOrStr (trRes env).language (jsOrStr o.language (str "en"))

/-- The accumulated cost estimate after the enhancement stage. -/
def finalCost (env : ProviderEnv) (o : ProcessingOptions) : ℚ :=
  match (enRes env o).error with
  | some _ => ((trRes env).cost).getD 0
  | none => ((trRes env).cost).getD 0 + ((enRes env o).cost).getD 0

/-- The row the persistence stage writes. -/
def theRow (env : ProviderEnv) (o : ProcessingOptions) : RecordingRow :=
  { user_id := o.userId, title := str "Recording " ++ env.nowString,
    audio_url := (upRes env o).url,
    original_transcript := (trRes env).text,
    enhanced_transcript := finalTranscript env o,
    language := finalLanguage env o,
    style := o.style.getD .note,
    duration := ((trRes env).audioLength).getD 0,
    word_count := pipelineWordCount (finalTranscript env o),
    character_count := (finalTranscript env o).length }

/-- The storage path the upload stage writes and the compensating delete must
remove: `{userId}/{recordingId}.m4a`. -/
def expectedPath (o : ProcessingOptions) : List Char :=
  o.userId ++ '/' :: (o.recordingId ++ str ".m4a")

/-! ## Concrete fixtures (used by witnesses and counterexamples) -/

/-- A fully healthy environment: small existing file, first-attempt upload
and transcription success, successful enhancement, successful insert. -/
def envOk : ProviderEnv :=
  { fileExists := true, fileSize := 1000, blobOk := fun _ => true,
    storageUpload := fun _ => none,
    urlPrefix := str "https://supa.example/storage/v1/object/public/audio-recordings",
    tBlobOk := fun _ => true,
    transcribeProvider := fun _ =>
      { text := str "hello world today", language := some (str "en"), error := none },
    audioLengthProbe := 30,
    enhanceProvider :=
      { enhanced := str "Hello world, today.", tokensUsed := some 100, error := none },
    insert := fun _ => .ok (str "db-id-1"), deleteOk := fun _ => true,
    nowString := str "2026-01-01" }

/-- Baseline options: note style, free tier. -/
def optsOk : ProcessingOptions :=
  { userId := str "user1", recordingId := str "rec1", style := some .note,
    language := none, customPrompt := none, isPremium := some false }

/-- Same as `optsOk` but requesting the premium-gated custom style. -/
def optsCustom : ProcessingOptions :=
  { optsOk with style := some .custom, customPrompt := some (str "pirate voice") }

/-- Healthy run except the database insert fails. -/
def envSaveFail : ProviderEnv := { envOk with insert := fun _ => .error (str "db down") }

/-- Healthy run except the generation provider errors. -/
def envEnhFail : ProviderEnv :=
  { envOk with enhanceProvider := { enhanced := [], tokensUsed := none, error := some (str "gpt down") } }

/-- Healthy run except the enhancement output is "hello world foo". -/
def envEnhFoo : ProviderEnv :=
  { envOk with enhanceProvider :=
      { enhanced := str "hello world foo", tokensUsed := some 10, error := none } }

/-- Every storage upload attempt fails with a distinct message. -/
def envUpFail : ProviderEnv :=
  { envOk with storageUpload := fun a => some (str "net" ++ [Char.ofNat (48 + a)]) }

/-- Every transcription attempt fails with a distinct message. -/
def envTrFail : ProviderEnv :=
  { envOk with transcribeProvider := fun a =>
      { text := [], language := none, error := some (str "whisper" ++ [Char.ofNat (48 + a)]) } }

/-- A three-operation queue with zero retry counts. -/
def queue3 : List QueuedOperation :=
  [{ id := 1, table := str "recordings", retries := 0 },
   { id := 2, table := str "recordings", retries := 0 },
   { id := 3, table := str "folders", retries := 0 }]

/-! ## Helper lemmas: repeat-run scanning -/

/-- A replicate is a prefix exactly when the leading run is long enough. -/
theorem replicate_prefix_iff_takeWhile (c : Char) (m : Nat) (l : List Char) :
    List.replicate m c <+: l ↔ m ≤ (l.takeWhile (· = c)).length := by
  induction m generalizing l with
  | zero => simp
  | succ m ih =>
    cases l with
    | nil => simp [List.replicate_succ]
    | cons d rest =>
      rw [List.replicate_succ, List.cons_prefix_cons, List.takeWhile_cons]
      by_cases hd : d = c
      · subst hd
        simp [ih, Nat.succ_le_succ_iff]
      · have hdc : ¬c = d := fun h => hd h.symm
        simp [hd, hdc]

/-- The scanner `hasDotRun` finds exactly the `k`-long runs of a
non-line-terminator character. -/
theorem hasDotRun_iff (k : Nat) (hk : 0 < k) (l : List Char) :
    hasDotRun k l = true ↔ ∃ c, dotChar c = true ∧ List.replicate k c <:+: l := by
  induction l with
  | nil =>
    constructor
    · intro h
      simp [hasDotRun] at h
    · rintro ⟨c, -, hinf⟩
      rw [List.infix_nil] at hinf
      have := congrArg List.length hinf
      simp at this
      omega
  | cons c rest ih =>
    simp only [hasDotRun, Bool.or_eq_true, Bool.and_eq_true, decide_eq_true_eq, ih]
    constructor
    · rintro (⟨hdot, hlen⟩ | ⟨d, hdot, hinf⟩)
      · refine ⟨c, hdot, List.infix_cons_iff.mpr (Or.inl ?_)⟩
        rw [replicate_prefix_iff_takeWhile, List.takeWhile_cons]
        simp
        omega
      · exact ⟨d, hdot, List.infix_cons_iff.mpr (Or.inr hinf)⟩
    · rintro ⟨d, hdot, hinf⟩
      rcases List.infix_cons_iff.mp hinf with hpre | hinf2
      · rw [replicate_prefix_iff_takeWhile, List.takeWhile_cons] at hpre
        by_cases hcd : c = d
        · subst hcd
          simp at hpre
          exact Or.inl ⟨hdot, by omega⟩
        · simp [hcd] at hpre
          omega
      · exact Or.inr ⟨d, hdot, hinf2⟩

/-- C8 (counterexample): the claim says a run of 10 identical consecutive
characters, or a whitespace-delimited word count below 3, makes the result
score poorly. The source regex `(.)\1{10,}` needs an 11-long run, so
"ab cd ef aaaaaaaaaa" (run of exactly 10, none of the other conditions)
scores a clean 100 with no issues; and " hello worldxyz" has 2
whitespace-delimited tokens yet also scores 100, because the source counts
the chunks of `split(/\s+/)`, which include an empty leading chunk. -/
theorem C8_quality_counterexample :
    (∃ c, dotChar c = true ∧ List.replicate 10 c <:+: str "ab cd ef aaaaaaaaaa") ∧
    (assessTranscriptQuality (str "ab cd ef aaaaaaaaaa")).issues = [] ∧
    (assessTranscriptQuality (str "ab cd ef aaaaaaaaaa")).score = 100 ∧
    nonWsRuns (str " hello worldxyz") = 2 ∧
    (assessTranscriptQuality (str " hello worldxyz")).issues = [] ∧
    (assessTranscriptQuality (str " hello worldxyz")).score = 100 :=
  ⟨⟨'a', by decide, by decide⟩, by decide, by decide, by decide, by decide, by decide⟩

/-- C8 (amended): `assessTranscriptQuality` reduces the score and records an
issue exactly when at least one of these holds: text length < 10; the text
contains a run of 11 or more identical consecutive non-line-terminator
characters; the trimmed text is nonempty and entirely numeric; or the number
of chunks of the JavaScript whitespace split (which counts empty boundary
chunks) is < 3. The function only ever returns this advisory score and issue
list, so a poor score by itself never rejects a result. -/
theorem C8_quality_flag_iff (t : List Char) :
    ((assessTranscriptQuality t).issues ≠ [] ∧ (assessTranscriptQuality t).score < 100) ↔
      (t.length < 10 ∨
        (∃ c, dotChar c = true ∧ List.replicate 11 c <:+: t) ∨
        (jsTrim t ≠ [] ∧ (jsTrim t).all Char.isDigit = true) ∨
        (jsSplitWs t).length < 3) := by
  have hrep : qcRepeat t = true ↔ ∃ c, dotChar c = true ∧ List.replicate 11 c <:+: t :=
    hasDotRun_iff 11 (by omega) t
  have key : ((assessTranscriptQuality t).issues ≠ [] ∧ (assessTranscriptQuality t).score < 100) ↔
      (qcShort t = true ∨ qcRepeat t = true ∨ qcNumeric t = true ∨ qcFewWords t = true) := by
    cases h1 : qcShort t <;> cases h2 : qcRepeat t <;> cases h3 : qcNumeric t <;>
      cases h4 : qcFewWords t <;>
      simp [assessTranscriptQuality, h1, h2, h3, h4]
  rw [key, ← hrep]
  simp [qcShort, qcRepeat, qcNumeric, qcFewWords, List.isEmpty_iff]

/-! ## Offline queue lemmas -/

/-- A replay pass is the order-preserving filterMap that drops successes,
increments the retry count of failures, and keeps a failure only while the
incremented count is below 3. -/
theorem syncQueue_eq_filterMap (exec : QueuedOperation → Bool)
    (q : List QueuedOperation) :
    syncQueue exec q = q.filterMap (fun op =>
      if exec op then none
      else if op.retries + 1 < 3 then some { op with retries := op.retries + 1 }
      else none) := by
  induction q with
  | nil => rfl
  | cons op rest ih =>
    simp only [syncQueue, List.filterMap_cons]
    by_cases h : exec op
    · simp [h, ih]
    · by_cases h2 : op.retries + 1 < 3 <;> simp [h, h2, ih]

/-- After a replay pass in which every execution fails, every kept operation
has the incremented retry count of its source operation. -/
theorem syncQueue_allfail_retries (exec : QueuedOperation → Bool)
    (hf : ∀ op, exec op = false) (q : List QueuedOperation) (r : Nat)
    (hq : ∀ op ∈ q, op.retries = r) (hr : r + 1 < 3) :
    (∀ op ∈ syncQueue exec q, op.retries = r + 1) ∧
      (syncQueue exec q).length = q.length := by
  induction q with
  | nil => simp [syncQueue]
  | cons op rest ih =>
    have h0 : op.retries = r := hq op (by simp)
    have hrest : ∀ op ∈ rest, op.retries = r := fun x hx => hq x (by simp [hx])
    obtain ⟨ih1, ih2⟩ := ih hrest
    constructor
    · intro x hx
      simp only [syncQueue, hf op, Bool.false_eq_true, if_false, h0, if_pos hr] at hx
      rcases List.mem_cons.mp hx with h | h
      · rw [h]
      · exact ih1 x h
    · simp only [syncQueue, hf op, Bool.false_eq_true, if_false, h0, if_pos hr]
      simp [ih2]

/-- After a replay pass in which every execution fails, a queue whose
operations all carry retry count 2 is emptied. -/
theorem syncQueue_allfail_drop (exec : QueuedOperation → Bool)
    (hf : ∀ op, exec op = false) (q : List QueuedOperation)
    (hq : ∀ op ∈ q, op.retries = 2) :
    syncQueue exec q = [] := by
  induction q with
  | nil => rfl
  | cons op rest ih =>
    have h0 : op.retries = 2 := hq op (by simp)
    have hrest : ∀ op ∈ rest, op.retries = 2 := fun x hx => hq x (by simp [hx])
    simp only [syncQueue, hf op, Bool.false_eq_true, if_false, h0]
    simp [ih hrest]

/-- C9: a replay pass processes the queue in enqueue order, dropping
successes, incrementing the retry count of each failure and keeping it only
while the incremented count is below 3 (the filterMap characterisation);
`enqueue` appends with retry count 0; and a queue of zero-retry operations
that fail on every replay is empty after the third failed pass. -/
theorem C9_offline_queue (exec : QueuedOperation → Bool)
    (q : List QueuedOperation) :
    (syncQueue exec q = q.filterMap (fun op =>
      if exec op then none
      else if op.retries + 1 < 3 then some { op with retries := op.retries + 1 }
      else none)) ∧
    (∀ freshId table, enqueueOp q freshId table =
      q ++ [{ id := freshId, table := table, retries := 0 }]) ∧
    ((∀ op, exec op = false) → (∀ op ∈ q, op.retries = 0) →
      syncQueue exec (syncQueue exec (syncQueue exec q)) = []) := by
  refine ⟨syncQueue_eq_filterMap exec q, fun _ _ => rfl, fun hf hq => ?_⟩
  have p1 := syncQueue_allfail_retries exec hf q 0 hq (by omega)
  have p2 := syncQueue_allfail_retries exec hf (syncQueue exec q) 1 p1.1 (by omega)
  exact syncQueue_allfail_drop exec hf _ p2.1

/-- C9 (witness): three enqueued zero-retry operations that fail on every
replay are all gone after the third failed pass. -/
theorem C9_offline_queue_witness :
    (∀ op ∈ queue3, op.retries = 0) ∧
      syncQueue (fun _ => false) (syncQueue (fun _ => false)
        (syncQueue (fun _ => false) queue3)) = [] :=
  ⟨by decide, (C9_offline_queue (fun _ => false) queue3).2.2 (fun _ => rfl) (by decide)⟩

/-! ## Retry-loop lemmas -/

/-- The function `uevWaits` distributes over append. -/
theorem uevWaits_append (l1 l2 : List UEv) :
    uevWaits (l1 ++ l2) = uevWaits l1 ++ uevWaits l2 := by
  simp [uevWaits]

/-- The function `evWaits` distributes over append. -/
theorem evWaits_append (l1 l2 : List Event) :
    evWaits (l1 ++ l2) = evWaits l1 ++ evWaits l2 := by
  simp [evWaits]

/-- A single upload attempt emits no backoff waits. -/
theorem uevWaits_uploadToSupabase (env : ProviderEnv) (u rc : List Char) (a : Nat) :
    uevWaits (uploadToSupabase env u rc a).2 = [] := by
  unfold uploadToSupabase
  split
  · rfl
  · split
    · rfl
    · split
      · rfl
      · split <;> rfl

/-- Unfolded form of `uevWaits_uploadToSupabase` for use inside `simp`. -/
theorem uploadToSupabase_waits (env : ProviderEnv) (u rc : List Char) (a : Nat) :
    List.filterMap (fun e => match e with | UEv.wait ms => some ms | _ => none)
      (uploadToSupabase env u rc a).2 = [] :=
  uevWaits_uploadToSupabase env u rc a

/-- A single transcription attempt emits no backoff waits. -/
theorem evWaits_transcribe (env : ProviderEnv) (a : Nat) :
    evWaits (transcribe env a).2 = [] := by
  unfold transcribe
  split
  · rfl
  · split
    · rfl
    · split
      · rfl
      · split <;> rfl

/-- Unfolded form of `evWaits_transcribe` for use inside `simp`. -/
theorem transcribe_waits (env : ProviderEnv) (a : Nat) :
    List.filterMap (fun e => match e with | Event.waitMs ms => some ms | _ => none)
      (transcribe env a).2 = [] :=
  evWaits_transcribe env a

/-- C5: both retry loops (upload, transcription) with the default
`maxRetries = 3` make at most 3 attempts; the backoff waits are exactly
`2^k * 1000` ms before retry attempt `k` for `k = 1, ..., attempts-1` (none
before attempt 0); and if every attempt fails, the surfaced error is the
error of the final (third) attempt. -/
theorem C5_retry_backoff (env : ProviderEnv) (u rc : List Char) :
    ((uploadWithRetry env u rc 3).2.2 ≤ 3 ∧
      uevWaits (uploadWithRetry env u rc 3).2.1 =
        ((List.range (uploadWithRetry env u rc 3).2.2).drop 1).map
          (fun k => 2 ^ k * 1000) ∧
      ((∀ k, k < 3 → ((uploadToSupabase env u rc k).1.error).isSome = true) →
        (uploadWithRetry env u rc 3).1.error =
          (uploadToSupabase env u rc 2).1.error)) ∧
    ((transcribeWithRetry env 3).2.2 ≤ 3 ∧
      evWaits (transcribeWithRetry env 3).2.1 =
        ((List.range (transcribeWithRetry env 3).2.2).drop 1).map
          (fun k => 2 ^ k * 1000) ∧
      ((∀ k, k < 3 → ((transcribe env k).1.error).isSome = true) →
        (transcribeWithRetry env 3).1.error = (transcribe env 2).1.error)) := by
  constructor
  · rcases h0 : (uploadToSupabase env u rc 0).1.error with _ | e0
    · simp only [uploadWithRetry, uploadRetryGo, h0]
      refine ⟨by norm_num, ?_, ?_⟩
      · simp [uevWaits, uploadToSupabase_waits]
        try decide
      · intro h
        have := h 0 (by omega)
        rw [h0] at this
        simp at this
    · rcases h1 : (uploadToSupabase env u rc 1).1.error with _ | e1
      · simp only [uploadWithRetry, uploadRetryGo, h0, h1]
        refine ⟨by norm_num, ?_, ?_⟩
        · simp [uevWaits, uploadToSupabase_waits]
          try decide
        · intro h
          have := h 1 (by omega)
          rw [h1] at this
          simp at this
      · rcases h2 : (uploadToSupabase env u rc 2).1.error with _ | e2
        · simp only [uploadWithRetry, uploadRetryGo, h0, h1, h2]
          refine ⟨by norm_num, ?_, ?_⟩
          · simp [uevWaits, uploadToSupabase_waits]
            try decide
          · intro h
            have := h 2 (by omega)
            rw [h2] at this
            simp at this
        · simp only [uploadWithRetry, uploadRetryGo, h0, h1, h2]
          refine ⟨by norm_num, ?_, ?_⟩
          · simp [uevWaits, uploadToSupabase_waits]
            try decide
          · intro _
            simp
  · rcases h0 : (transcribe env 0).1.error with _ | e0
    · simp only [transcribeWithRetry, transcribeRetryGo, h0]
      refine ⟨by norm_num, ?_, ?_⟩
      · simp [evWaits, transcribe_waits]
        try decide
      · intro h
        have := h 0 (by omega)
        rw [h0] at this
        simp at this
    · rcases h1 : (transcribe env 1).1.error with _ | e1
      · simp only [transcribeWithRetry, transcribeRetryGo, h0, h1]
        refine ⟨by norm_num, ?_, ?_⟩
        · simp [evWaits, transcribe_waits]
          try decide
        · intro h
          have := h 1 (by omega)
          rw [h1] at this
          simp at this
      · rcases h2 : (transcribe env 2).1.error with _ | e2
        · simp only [transcribeWithRetry, transcribeRetryGo, h0, h1, h2]
          refine ⟨by norm_num, ?_, ?_⟩
          · simp [evWaits, transcribe_waits]
            try decide
          · intro h
            have := h 2 (by omega)
            rw [h2] at this
            simp at this
        · simp only [transcribeWithRetry, transcribeRetryGo, h0, h1, h2]
          refine ⟨by norm_num, ?_, ?_⟩
          · simp [evWaits, transcribe_waits]
            try decide
          · intro _
            simp

/-! ## Upload success shape -/

/-- A successful upload attempt returns the deterministic storage path
`{userId}/{recordingId}.m4a` and the public URL ending in it. -/
theorem uploadToSupabase_success (env : ProviderEnv) (u rc : List Char) (a : Nat)
    (h : (uploadToSupabase env u rc a).1.error = none) :
    (uploadToSupabase env u rc a).1 =
      { path := u ++ '/' :: (rc ++ str ".m4a"),
        url := env.urlPrefix ++ '/' :: (u ++ '/' :: (rc ++ str ".m4a")),
        error := none } := by
  by_cases hf : env.fileExists
  · by_cases hs : 52428800 < env.fileSize
    · simp [uploadToSupabase, hf, hs] at h
    · by_cases hb : env.blobOk a
      · rcases hsu : env.storageUpload a with _ | e
        · simp [uploadToSupabase, hf, hs, hb, hsu]
        · simp [uploadToSupabase, hf, hs, hb, hsu] at h
      · simp [uploadToSupabase, hf, hs, hb] at h
  · simp [uploadToSupabase, hf] at h

/-- A successful retry loop hands back the successful attempt result, hence
the deterministic path and URL. -/
theorem uploadRetryGo_success (env : ProviderEnv) (u rc : List Char) (f : Nat) :
    ∀ (a : Nat) (le : Option (List Char)),
      (uploadRetryGo env u rc a f le).1.error = none →
      (uploadRetryGo env u rc a f le).1 =
        { path := u ++ '/' :: (rc ++ str ".m4a"),
          url := env.urlPrefix ++ '/' :: (u ++ '/' :: (rc ++ str ".m4a")),
          error := none } := by
  induction f with
  | zero =>
    intro a le h
    simp [uploadRetryGo] at h
  | succ f ih =>
    intro a le h
    rcases he : (uploadToSupabase env u rc a).1.error with _ | e
    · simp only [uploadRetryGo, he]
      exact uploadToSupabase_success env u rc a he
    · simp only [uploadRetryGo, he] at h ⊢
      exact ih (a + 1) (some e) h

/-- The URL of a successful upload stage. -/
theorem upRes_success_url (env : ProviderEnv) (o : ProcessingOptions)
    (h : (upRes env o).error = none) :
    (upRes env o).url =
      env.urlPrefix ++ '/' :: (o.userId ++ '/' :: (o.recordingId ++ str ".m4a")) := by
  have := uploadRetryGo_success env o.userId o.recordingId 3 0 none h
  rw [show upRes env o = (uploadRetryGo env o.userId o.recordingId 0 3 none).1 from rfl, this]

/-! ## Last URL segment -/

/-- The walk `splitSlashAux` never returns an empty list. -/
theorem splitSlashAux_ne_nil (l : List Char) : ∀ acc, splitSlashAux l acc ≠ [] := by
  induction l with
  | nil => intro acc; simp [splitSlashAux]
  | cons c rest ih =>
    intro acc
    by_cases hc : c = '/'
    · simp [splitSlashAux, hc]
    · simp only [splitSlashAux, if_neg hc]
      exact ih (c :: acc)

/-- The value `getLastD` of a nonempty list ignores the default. -/
theorem getLastD_of_ne_nil {α : Type} (l : List α) (h : l ≠ []) (d₁ d₂ : α) :
    l.getLastD d₁ = l.getLastD d₂ := by
  cases l with
  | nil => exact absurd rfl h
  | cons a rest => rfl

/-- The last `/`-segment is blind to everything before a `/`. -/
theorem lastSlashSegment_append_slash (xs ys : List Char) :
    lastSlashSegment (xs ++ '/' :: ys) = lastSlashSegment ys := by
  suffices h : ∀ acc, (splitSlashAux (xs ++ '/' :: ys) acc).getLastD [] =
      (splitSlashAux ys []).getLastD [] by
    exact h []
  induction xs with
  | nil =>
    intro acc
    have hsplit : splitSlashAux ([] ++ '/' :: ys) acc =
        acc.reverse :: splitSlashAux ys [] := by
      simp [splitSlashAux]
    rw [hsplit, List.getLastD_cons,
      getLastD_of_ne_nil _ (splitSlashAux_ne_nil ys []) acc.reverse []]
  | cons x xs ih =>
    intro acc
    by_cases hx : x = '/'
    · subst hx
      have hsplit : splitSlashAux (('/' :: xs) ++ '/' :: ys) acc =
          acc.reverse :: splitSlashAux (xs ++ '/' :: ys) [] := by
        simp [splitSlashAux]
      rw [hsplit, List.getLastD_cons,
        getLastD_of_ne_nil _ (splitSlashAux_ne_nil (xs ++ '/' :: ys) []) acc.reverse [],
        ih []]
    · have hsplit : splitSlashAux ((x :: xs) ++ '/' :: ys) acc =
          splitSlashAux (xs ++ '/' :: ys) (x :: acc) := by
        simp [splitSlashAux, hx]
      rw [hsplit, ih (x :: acc)]

/-- Splitting a slash-free list returns it whole. -/
theorem splitSlashAux_no_slash (ys : List Char) :
    ∀ acc, '/' ∉ ys → splitSlashAux ys acc = [acc.reverse ++ ys] := by
  induction ys with
  | nil => intro acc _; simp [splitSlashAux]
  | cons c rest ih =>
    intro acc h
    have hc : ¬c = '/' := fun hc => h (by simp [hc])
    simp only [splitSlashAux, if_neg hc]
    rw [ih (c :: acc) (fun hm => h (by simp [hm]))]
    simp

/-- The last `/`-segment of a slash-free list is the list itself. -/
theorem lastSlashSegment_no_slash (ys : List Char) (h : '/' ∉ ys) :
    lastSlashSegment ys = ys := by
  unfold lastSlashSegment splitSlash
  rw [splitSlashAux_no_slash ys [] h]
  rfl

/-- The compensating-delete path rebuilt from a successful upload URL is the
deterministic storage path, provided the recording id has no slash. -/
theorem cleanup_path_eq (env : ProviderEnv) (o : ProcessingOptions)
    (hu : (upRes env o).error = none) (hrc : '/' ∉ o.recordingId) :
    o.userId ++ '/' :: lastSlashSegment (upRes env o).url = expectedPath o := by
  rw [upRes_success_url env o hu, lastSlashSegment_append_slash,
    lastSlashSegment_append_slash, lastSlashSegment_no_slash, expectedPath]
  intro hm
  rcases List.mem_append.mp hm with hm | hm
  · exact hrc hm
  · simp [str] at hm

/-! ## Branch characterisations of `process` -/

/-- A run in which upload succeeds, transcription succeeds with non-blank
text and the insert succeeds: the complete record and the full trace. -/
theorem process_success (env : ProviderEnv) (o : ProcessingOptions)
    (hu : (upRes env o).error = none)
    (ht : (trRes env).error = none)
    (htx : ¬jsTrim (trRes env).text = [])
    (newId : List Char) (hins : env.insert (theRow env o) = .ok newId) :
    process env o =
      ({ recordingId := newId, audioUrl := (upRes env o).url,
         originalTranscript := (trRes env).text,
         enhancedTranscript := finalTranscript env o,
         language := finalLanguage env o, style := o.style.getD .note,
         duration := ((trRes env).audioLength).getD 0,
         wordCount := pipelineWordCount (finalTranscript env o),
         characterCount := (finalTranscript env o).length,
         totalCost := finalCost env o, error := none },
       [Event.progress .uploading 0] ++
         (uploadWithRetry env o.userId o.recordingId 3).2.1.map mapUploadEvent ++
         [Event.progress .uploading 25, Event.stageDone .uploading,
          Event.progress .transcribing 25] ++
         (transcribeWithRetry env 3).2.1 ++
         [Event.progress .transcribing 60, Event.stageDone .transcribing,
          Event.progress .enhancing 60] ++
         (enhance env (trRes env).text (enOpts o)).2 ++
         [Event.progress .enhancing 90, Event.stageDone .enhancing,
          Event.progress .saving 90] ++
         [Event.insertCall (theRow env o), Event.progress .saving 100,
          Event.stageDone .saving, Event.progress .complete 100,
          Event.stageDone .complete]) := by
  have hu' : (uploadWithRetry env o.userId o.recordingId 3).1.error = none := hu
  have ht' : (transcribeWithRetry env 3).1.error = none := ht
  have htx' : ¬jsTrim (transcribeWithRetry env 3).1.text = [] := htx
  have hins' : env.insert (theRow env o) = Except.ok newId := hins
  simp only [process, hu', ht']
  simp only [theRow, finalTranscript, finalLanguage, finalCost, enRes, trRes,
    upRes, enOpts, jsOrStr] at hins' ⊢
  rw [if_neg htx', hins']

/-- The URL of a successful upload stage is nonempty. -/
theorem upRes_url_ne_nil (env : ProviderEnv) (o : ProcessingOptions)
    (hu : (upRes env o).error = none) : (upRes env o).url ≠ [] := by
  rw [upRes_success_url env o hu]
  intro h
  rcases List.append_eq_nil.mp h with ⟨-, h2⟩
  exact List.cons_ne_nil _ _ h2

/-- A run in which the upload stage fails: no cleanup, empty accumulators,
prefixed upload error. -/
theorem process_upfail (env : ProviderEnv) (o : ProcessingOptions)
    (e : List Char) (hu : (upRes env o).error = some e) :
    process env o =
      ({ recordingId := o.recordingId, audioUrl := [], originalTranscript := [],
         enhancedTranscript := [], language := jsOrStr o.language (str "en"),
         style := o.style.getD .note, duration := 0, wordCount := 0,
         characterCount := 0, totalCost := 0,
         error := some (str "Upload failed: " ++ e) },
       [Event.progress .uploading 0] ++
         (uploadWithRetry env o.userId o.recordingId 3).2.1.map mapUploadEvent ++
         [Event.progress .error 0, Event.stageDone .error]) := by
  have hu' : (uploadWithRetry env o.userId o.recordingId 3).1.error = some e := hu
  simp only [process, hu', pipelineCatch, jsOrStr]
  simp

/-- A run in which upload succeeds and transcription fails after retries:
compensating delete at the rebuilt path, prefixed transcription error. -/
theorem process_trfail (env : ProviderEnv) (o : ProcessingOptions)
    (hu : (upRes env o).error = none)
    (e : List Char) (ht : (trRes env).error = some e) :
    process env o =
      ({ recordingId := o.recordingId, audioUrl := (upRes env o).url,
         originalTranscript := [], enhancedTranscript := [],
         language := jsOrStr o.language (str "en"),
         style := o.style.getD .note, duration := 0, wordCount := 0,
         characterCount := 0, totalCost := 0,
         error := some (str "Transcription failed: " ++ e) },
       [Event.progress .uploading 0] ++
         (uploadWithRetry env o.userId o.recordingId 3).2.1.map mapUploadEvent ++
         [Event.progress .uploading 25, Event.stageDone .uploading,
          Event.progress .transcribing 25] ++
         (transcribeWithRetry env 3).2.1 ++
         ([Event.progress .error 0, Event.stageDone .error] ++
          [Event.deleteCall (o.userId ++ '/' :: lastSlashSegment (upRes env o).url)
            (env.deleteOk (o.userId ++ '/' :: lastSlashSegment (upRes env o).url))])) := by
  have hu' : (uploadWithRetry env o.userId o.recordingId 3).1.error = none := hu
  have ht' : (transcribeWithRetry env 3).1.error = some e := ht
  have hurl : (uploadWithRetry env o.userId o.recordingId 3).1.url ≠ [] :=
    upRes_url_ne_nil env o hu
  simp only [process, hu', ht', pipelineCatch, upRes, if_pos hurl]

/-- A run in which upload succeeds and transcription returns blank text:
same compensation, the empty-result error. -/
theorem process_tr_empty (env : ProviderEnv) (o : ProcessingOptions)
    (hu : (upRes env o).error = none)
    (ht : (trRes env).error = none)
    (htx : jsTrim (trRes env).text = []) :
    process env o =
      ({ recordingId := o.recordingId, audioUrl := (upRes env o).url,
         originalTranscript := [], enhancedTranscript := [],
         language := jsOrStr o.language (str "en"),
         style := o.style.getD .note, duration := 0, wordCount := 0,
         characterCount := 0, totalCost := 0,
         error := some (str "Transcription produced empty result. Please try speaking louder.") },
       [Event.progress .uploading 0] ++
         (uploadWithRetry env o.userId o.recordingId 3).2.1.map mapUploadEvent ++
         [Event.progress .uploading 25, Event.stageDone .uploading,
          Event.progress .transcribing 25] ++
         (transcribeWithRetry env 3).2.1 ++
         ([Event.progress .error 0, Event.stageDone .error] ++
          [Event.deleteCall (o.userId ++ '/' :: lastSlashSegment (upRes env o).url)
            (env.deleteOk (o.userId ++ '/' :: lastSlashSegment (upRes env o).url))])) := by
  have hu' : (uploadWithRetry env o.userId o.recordingId 3).1.error = none := hu
  have ht' : (transcribeWithRetry env 3).1.error = none := ht
  have htx' : jsTrim (transcribeWithRetry env 3).1.text = [] := htx
  have hurl : (uploadWithRetry env o.userId o.recordingId 3).1.url ≠ [] :=
    upRes_url_ne_nil env o hu
  simp only [process, hu', ht', if_pos htx', pipelineCatch, upRes, if_pos hurl]

/-- A run in which everything up to persistence succeeds and the insert
fails: compensation plus the accumulated fields, zeroed counts, and the
insert error verbatim. -/
theorem process_savefail (env : ProviderEnv) (o : ProcessingOptions)
    (hu : (upRes env o).error = none)
    (ht : (trRes env).error = none)
    (htx : ¬jsTrim (trRes env).text = [])
    (e : List Char) (hins : env.insert (theRow env o) = .error e) :
    process env o =
      ({ recordingId := o.recordingId, audioUrl := (upRes env o).url,
         originalTranscript := (trRes env).text,
         enhancedTranscript := finalTranscript env o,
         language := finalLanguage env o, style := o.style.getD .note,
         duration := ((trRes env).audioLength).getD 0, wordCount := 0,
         characterCount := 0, totalCost := finalCost env o, error := some e },
       [Event.progress .uploading 0] ++
         (uploadWithRetry env o.userId o.recordingId 3).2.1.map mapUploadEvent ++
         [Event.progress .uploading 25, Event.stageDone .uploading,
          Event.progress .transcribing 25] ++
         (transcribeWithRetry env 3).2.1 ++
         [Event.progress .transcribing 60, Event.stageDone .transcribing,
          Event.progress .enhancing 60] ++
         (enhance env (trRes env).text (enOpts o)).2 ++
         [Event.progress .enhancing 90, Event.stageDone .enhancing,
          Event.progress .saving 90] ++
         [Event.insertCall (theRow env o)] ++
         ([Event.progress .error 0, Event.stageDone .error] ++
          [Event.deleteCall (o.userId ++ '/' :: lastSlashSegment (upRes env o).url)
            (env.deleteOk (o.userId ++ '/' :: lastSlashSegment (upRes env o).url))])) := by
  have hu' : (uploadWithRetry env o.userId o.recordingId 3).1.error = none := hu
  have ht' : (transcribeWithRetry env 3).1.error = none := ht
  have htx' : ¬jsTrim (transcribeWithRetry env 3).1.text = [] := htx
  have hins' : env.insert (theRow env o) = Except.error e := hins
  have hurl : (uploadWithRetry env o.userId o.recordingId 3).1.url ≠ [] :=
    upRes_url_ne_nil env o hu
  simp only [process, hu', ht', pipelineCatch]
  simp only [theRow, finalTranscript, finalLanguage, finalCost, enRes, trRes,
    upRes, enOpts, jsOrStr] at hins' ⊢
  rw [if_neg htx', hins']
  simp only [upRes] at hurl
  rw [if_pos hurl]

/-! ## Word-count equivalence -/

/-- Counting the nonempty chunks of the JS whitespace split, in all three
walk states, matches the token count. -/
theorem splitWs_filter_count (l : List Char) :
    (∀ acc, acc ≠ [] →
      ((splitWsAux l acc).filter (fun w => decide (0 < w.length))).length =
        1 + nonWsRunsIn l) ∧
    ((splitWsAux l []).filter (fun w => decide (0 < w.length))).length = nonWsRuns l ∧
    ((splitWsSkip l).filter (fun w => decide (0 < w.length))).length = nonWsRuns l := by
  induction l with
  | nil =>
    refine ⟨fun acc hacc => ?_, by simp [splitWsAux, nonWsRuns], by simp [splitWsSkip, nonWsRuns]⟩
    have hpos : 0 < acc.length := List.length_pos.mpr hacc
    simp [splitWsAux, nonWsRunsIn, List.filter_cons, hpos]
  | cons c rest ih =>
    obtain ⟨ih1, ih2, ih3⟩ := ih
    by_cases hc : c.isWhitespace
    · refine ⟨fun acc hacc => ?_, ?_, ?_⟩
      · have hkeep : decide (0 < acc.reverse.length) = true := by
          simp [List.length_pos, hacc]
        simp only [splitWsAux, if_pos hc, List.filter_cons, hkeep, if_true,
          List.length_cons, nonWsRunsIn, ih3]
        omega
      · simp only [splitWsAux, if_pos hc, List.reverse_nil, List.filter_cons]
        simp only [nonWsRuns, if_pos hc]
        simpa using ih3
      · simp only [splitWsSkip, if_pos hc]
        simp only [nonWsRuns, if_pos hc]
        exact ih3
    · refine ⟨fun acc hacc => ?_, ?_, ?_⟩
      · simp only [splitWsAux, if_neg hc]
        rw [ih1 (c :: acc) (List.cons_ne_nil c acc)]
        simp only [nonWsRunsIn, if_neg hc]
      · simp only [splitWsAux, if_neg hc]
        rw [ih1 [c] (List.cons_ne_nil c [])]
        simp only [nonWsRuns, if_neg hc]
      · simp only [splitWsSkip, if_neg hc]
        rw [ih1 [c] (List.cons_ne_nil c [])]
        simp only [nonWsRuns, if_neg hc]

/-- The pipeline word count equals the whitespace-delimited token count. -/
theorem pipelineWordCount_eq_nonWsRuns (l : List Char) :
    pipelineWordCount l = nonWsRuns l :=
  (splitWs_filter_count l).2.1

/-! ## Enhancement-stage lemmas -/

/-- The premium gate: with the `custom` style and no premium flag,
`enhance` makes no generation-provider call. -/
theorem enhance_custom_free_no_call (env : ProviderEnv) (t : List Char)
    (opts : EnhanceOptions) (hsty : opts.style = .custom)
    (hpre : opts.isPremium = false) :
    (enhance env t opts).2 = [] := by
  unfold enhance
  by_cases h : jsTrim t = []
  · simp [h]
  · simp [h, hsty, hpre]

/-- The premium gate: with the `custom` style and no premium flag,
`enhance` returns the validation error (raised before any provider call). -/
theorem enhance_custom_free_error (env : ProviderEnv) (t : List Char)
    (opts : EnhanceOptions) (hsty : opts.style = .custom)
    (hpre : opts.isPremium = false) (ht : ¬jsTrim t = []) :
    (enhance env t opts).1.error =
      some (str "Custom prompts are only available for premium users") := by
  unfold enhance
  simp [ht, hsty, hpre, enhanceErr]

/-- A successful enhancement has validated non-blank output. -/
theorem enhance_success_not_blank (env : ProviderEnv) (t : List Char)
    (opts : EnhanceOptions) (h : (enhance env t opts).1.error = none) :
    ¬jsTrim (enhance env t opts).1.enhanced = [] := by
  unfold enhance at *
  by_cases h1 : jsTrim t = []
  · simp [h1, enhanceErr] at h
  · simp only [if_neg h1] at h ⊢
    by_cases h2 : (decide (opts.style = EnhancementStyle.custom) && !opts.isPremium) = true
    · simp [h2, enhanceErr] at h
    · simp only [Bool.not_eq_true] at h2
      simp only [h2, Bool.false_eq_true, if_false] at h ⊢
      by_cases h3 : (decide (opts.style = EnhancementStyle.custom) && opts.customPrompt = none) = true
      · simp [h3, enhanceErr] at h
      · simp only [Bool.not_eq_true] at h3
        simp only [h3, Bool.false_eq_true, if_false] at h ⊢
        rcases he : (env.enhanceProvider).error with _ | e
        · rw [he] at h
          by_cases h4 : jsTrim (env.enhanceProvider).enhanced = []
          · simp [h4, enhanceErr] at h
          · simp [h4]
        · rw [he] at h
          simp [enhanceErr] at h

/-! ## Generation-call counting -/

/-- The count `countGenerationCalls` distributes over append. -/
theorem countGenerationCalls_append (l1 l2 : List Event) :
    countGenerationCalls (l1 ++ l2) =
      countGenerationCalls l1 + countGenerationCalls l2 := by
  simp [countGenerationCalls]

/-- Remapped upload events contain no generation calls. -/
theorem countGenerationCalls_mapUpload (l : List UEv) :
    countGenerationCalls (l.map mapUploadEvent) = 0 := by
  induction l with
  | nil => rfl
  | cons e rest ih =>
    cases e <;> simpa [countGenerationCalls, mapUploadEvent, List.filter_cons] using ih

/-- A transcription attempt emits either no event or exactly its provider
call. -/
theorem transcribe_events_shape (env : ProviderEnv) (a : Nat) :
    (transcribe env a).2 = [] ∨ (transcribe env a).2 = [Event.transcribeCall a] := by
  unfold transcribe
  split
  · exact Or.inl rfl
  · split
    · exact Or.inl rfl
    · split
      · exact Or.inl rfl
      · split
        · exact Or.inr rfl
        · exact Or.inr rfl

/-- An enhancement call emits either no event or exactly its provider call. -/
theorem enhance_events_shape (env : ProviderEnv) (t : List Char)
    (opts : EnhanceOptions) :
    (enhance env t opts).2 = [] ∨ (enhance env t opts).2 = [Event.generationCall] := by
  unfold enhance
  split
  · exact Or.inl rfl
  · split
    · exact Or.inl rfl
    · split
      · exact Or.inl rfl
      · split
        · exact Or.inr rfl
        · split
          · exact Or.inr rfl
          · exact Or.inr rfl

/-- The transcription retry loop makes no generation call. -/
theorem countGenerationCalls_transcribeGo (env : ProviderEnv) (f : Nat) :
    ∀ (a : Nat) (le : Option (List Char)),
      countGenerationCalls (transcribeRetryGo env a f le).2.1 = 0 := by
  induction f with
  | zero => intro a le; rfl
  | succ f ih =>
    intro a le
    rcases he : (transcribe env a).1.error with _ | e
    · rcases transcribe_events_shape env a with hs | hs <;>
        by_cases ha : 0 < a <;>
        simp [transcribeRetryGo, he, hs, ha, countGenerationCalls]
    · have ihe := ih (a + 1) (some e)
      have hall : ∀ x ∈ (transcribeRetryGo env (a + 1) f (some e)).2.1,
          (match x with | Event.generationCall => true | _ => false) = false := by
        intro x hx
        have h0 : (List.filter
            (fun x => match x with | Event.generationCall => true | _ => false)
            (transcribeRetryGo env (a + 1) f (some e)).2.1).length = 0 := ihe
        have h1 := List.length_eq_zero.mp h0
        rw [List.filter_eq_nil_iff] at h1
        simpa using h1 x hx
      rcases transcribe_events_shape env a with hs | hs <;>
        by_cases ha : 0 < a <;>
        simp [transcribeRetryGo, he, hs, ha, countGenerationCalls_append,
          countGenerationCalls] <;>
        try exact hall

/-! ## Progress-event lemmas -/

/-- The function `uevProgs` distributes over append. -/
theorem uevProgs_append (l1 l2 : List UEv) :
    uevProgs (l1 ++ l2) = uevProgs l1 ++ uevProgs l2 := by
  simp [uevProgs]

/-- A wait event carries no progress. -/
theorem uevProgs_wait (ms : Nat) (l : List UEv) :
    uevProgs (UEv.wait ms :: l) = uevProgs l := by
  simp [uevProgs, List.filterMap_cons]

/-- No events, no progress. -/
theorem uevProgs_nil : uevProgs [] = [] := rfl

/-- A failed upload attempt reports no progress or just the initial 0%. -/
theorem uploadToSupabase_fail_progs (env : ProviderEnv) (u rc : List Char)
    (a : Nat) (e : List Char) (h : (uploadToSupabase env u rc a).1.error = some e) :
    uevProgs (uploadToSupabase env u rc a).2 = [] ∨
      uevProgs (uploadToSupabase env u rc a).2 = [0] := by
  by_cases hf : env.fileExists
  · by_cases hs : 52428800 < env.fileSize
    · simp [uploadToSupabase, hf, hs, uevProgs]
    · by_cases hb : env.blobOk a
      · rcases hsu : env.storageUpload a with _ | e2
        · simp [uploadToSupabase, hf, hs, hb, hsu] at h
        · simp [uploadToSupabase, hf, hs, hb, hsu, uevProgs]
      · simp [uploadToSupabase, hf, hs, hb, uevProgs]
  · simp [uploadToSupabase, hf, uevProgs]

/-- A successful upload attempt reports exactly 0% then 100% (the source
provider wrapper never fires the intermediate callback). -/
theorem uploadToSupabase_succ_progs (env : ProviderEnv) (u rc : List Char)
    (a : Nat) (h : (uploadToSupabase env u rc a).1.error = none) :
    uevProgs (uploadToSupabase env u rc a).2 = [0, 100] := by
  by_cases hf : env.fileExists
  · by_cases hs : 52428800 < env.fileSize
    · simp [uploadToSupabase, hf, hs] at h
    · by_cases hb : env.blobOk a
      · rcases hsu : env.storageUpload a with _ | e2
        · simp [uploadToSupabase, hf, hs, hb, hsu, uevProgs]
        · simp [uploadToSupabase, hf, hs, hb, hsu] at h
      · simp [uploadToSupabase, hf, hs, hb] at h
  · simp [uploadToSupabase, hf] at h

/-- A successful upload retry loop reports some initial zeros (one per
attempt that got as far as the transfer, at least the successful one) and a
single final 100%. -/
theorem uploadRetryGo_succ_progs (env : ProviderEnv) (u rc : List Char)
    (f : Nat) : ∀ (a : Nat) (le : Option (List Char)),
    (uploadRetryGo env u rc a f le).1.error = none →
    ∃ m, 1 ≤ m ∧
      uevProgs (uploadRetryGo env u rc a f le).2.1 =
        List.replicate m (0 : ℚ) ++ [100] := by
  induction f with
  | zero =>
    intro a le h
    simp [uploadRetryGo] at h
  | succ f ih =>
    intro a le h
    rcases he : (uploadToSupabase env u rc a).1.error with _ | e
    · have hp := uploadToSupabase_succ_progs env u rc a he
      refine ⟨1, le_refl 1, ?_⟩
      simp only [uploadRetryGo, he]
      by_cases ha : 0 < a <;>
        simp [ha, uevProgs_append, uevProgs_wait, uevProgs_nil, hp]
    · simp only [uploadRetryGo, he] at h ⊢
      obtain ⟨m, hm, hprog⟩ := ih (a + 1) (some e) h
      rcases uploadToSupabase_fail_progs env u rc a e he with hp | hp
      · refine ⟨m, hm, ?_⟩
        by_cases ha : 0 < a <;>
          simp [ha, uevProgs_append, uevProgs_wait, uevProgs_nil, hp, hprog]
      · refine ⟨m + 1, by omega, ?_⟩
        by_cases ha : 0 < a <;>
          simp [ha, uevProgs_append, uevProgs_wait, uevProgs_nil, hp, hprog,
            List.replicate_succ]

/-- Remapped upload events carry exactly the remapped percentages, all
tagged with the uploading stage. -/
theorem progressEntries_mapUpload (l : List UEv) :
    progressEntries (l.map mapUploadEvent) =
      (uevProgs l).map (fun p => (ProcessingStage.uploading, p / 100 * 25)) := by
  induction l with
  | nil => rfl
  | cons e rest ih =>
    cases e <;> simpa [progressEntries, uevProgs, mapUploadEvent,
      List.filterMap_cons] using ih

/-- The function `progressEntries` distributes over append. -/
theorem progressEntries_append (l1 l2 : List Event) :
    progressEntries (l1 ++ l2) = progressEntries l1 ++ progressEntries l2 := by
  simp [progressEntries]

/-- A transcription attempt reports no progress. -/
theorem progressEntries_transcribe (env : ProviderEnv) (a : Nat) :
    progressEntries (transcribe env a).2 = [] := by
  rcases transcribe_events_shape env a with hs | hs <;> simp [hs, progressEntries]

/-- The transcription retry loop reports no progress. -/
theorem progressEntries_transcribeGo (env : ProviderEnv) (f : Nat) :
    ∀ (a : Nat) (le : Option (List Char)),
      progressEntries (transcribeRetryGo env a f le).2.1 = [] := by
  induction f with
  | zero => intro a le; rfl
  | succ f ih =>
    intro a le
    have hmem : ∀ x ∈ (transcribe env a).2,
        (match x with | Event.progress s p => some (s, p) | _ => none) =
          (none : Option (ProcessingStage × ℚ)) := by
      rcases transcribe_events_shape env a with hs | hs <;> simp [hs]
    rcases he : (transcribe env a).1.error with _ | e
    · simp only [transcribeRetryGo, he]
      by_cases ha : 0 < a <;>
        simp [ha, progressEntries] <;>
        exact hmem
    · have hall : ∀ x ∈ (transcribeRetryGo env (a + 1) f (some e)).2.1,
          (match x with | Event.progress s p => some (s, p) | _ => none) =
            (none : Option (ProcessingStage × ℚ)) := by
        intro x hx
        have h1 : List.filterMap
            (fun e => match e with | Event.progress s p => some (s, p) | _ => none)
            (transcribeRetryGo env (a + 1) f (some e)).2.1 = [] := ih (a + 1) (some e)
        rw [List.filterMap_eq_nil_iff] at h1
        exact h1 x hx
      simp only [transcribeRetryGo, he]
      by_cases ha : 0 < a <;>
        simp [ha, progressEntries] <;>
        exact ⟨hmem, hall⟩

/-- The enhancement stage reports no progress of its own. -/
theorem progressEntries_enhance (env : ProviderEnv) (t : List Char)
    (opts : EnhanceOptions) : progressEntries (enhance env t opts).2 = [] := by
  rcases enhance_events_shape env t opts with hs | hs <;> simp [hs, progressEntries]

/-- Progress percentages are the second components of the progress entries. -/
theorem progressValues_eq_entries (l : List Event) :
    progressValues l = (progressEntries l).map Prod.snd := by
  induction l with
  | nil => rfl
  | cons e rest ih =>
    cases e <;> simpa [progressValues, progressEntries, List.filterMap_cons] using ih

/-- A constant list is a `≤`-chain. -/
theorem chain'_le_replicate (n : Nat) (a : ℚ) :
    List.Chain' (· ≤ ·) (List.replicate n a) := by
  induction n with
  | zero => simp
  | succ n ih =>
    cases n with
    | zero => simp
    | succ n =>
      rw [List.replicate_succ, List.replicate_succ, List.chain'_cons,
        ← List.replicate_succ]
      exact ⟨le_refl a, ih⟩

/-- The last element of a nonempty constant list. -/
theorem getLast?_replicate_succ (n : Nat) (a : ℚ) :
    (List.replicate (n + 1) a).getLast? = some a := by
  induction n with
  | zero => rfl
  | succ n ih =>
    rw [List.replicate_succ]
    rw [List.getLast?_cons]
    rw [List.replicate_succ] at ih ⊢
    simp_all

/-- C5 (witness): in an environment where every attempt of both providers
fails, both loops surface the error of the third attempt and wait 2s then
4s. -/
theorem C5_retry_backoff_witness :
    (∀ k, k < 3 →
      ((uploadToSupabase { envUpFail with transcribeProvider := envTrFail.transcribeProvider }
        (str "u") (str "r") k).1.error).isSome = true) ∧
    (∀ k, k < 3 →
      ((transcribe { envUpFail with transcribeProvider := envTrFail.transcribeProvider }
        k).1.error).isSome = true) ∧
    (uploadWithRetry { envUpFail with transcribeProvider := envTrFail.transcribeProvider }
        (str "u") (str "r") 3).1.error = some (str "net2") ∧
    (transcribeWithRetry { envUpFail with transcribeProvider := envTrFail.transcribeProvider }
        3).1.error = some (str "whisper2") ∧
    uevWaits (uploadWithRetry { envUpFail with transcribeProvider := envTrFail.transcribeProvider }
        (str "u") (str "r") 3).2.1 = [2000, 4000] ∧
    evWaits (transcribeWithRetry { envUpFail with transcribeProvider := envTrFail.transcribeProvider }
        3).2.1 = [2000, 4000] := by
  have h := C5_retry_backoff
    { envUpFail with transcribeProvider := envTrFail.transcribeProvider }
    (str "u") (str "r")
  refine ⟨by decide, by decide, ?_, ?_, by decide, by decide⟩
  · rw [h.1.2.2 (by decide)]
    decide
  · rw [h.2.2.2 (by decide)]
    decide

/-- The final transcript (enhanced, or the original after the fallback) is
never blank when the original is not blank. -/
theorem finalTranscript_not_blank (env : ProviderEnv) (o : ProcessingOptions)
    (htx : ¬jsTrim (trRes env).text = []) :
    ¬jsTrim (finalTranscript env o) = [] := by
  unfold finalTranscript
  rcases he : (enRes env o).error with _ | e
  · exact enhance_success_not_blank env (trRes env).text (enOpts o) he
  · exact htx

/-- C3: for a job whose transcription succeeds with non-empty text and whose
enhancement stage returns an error (the remaining stages succeeding), the
run completes with no error and the returned enhanced transcript equals the
original transcript. -/
theorem C3_enhancement_failure_fallback (env : ProviderEnv)
    (o : ProcessingOptions)
    (hu : (upRes env o).error = none)
    (ht : (trRes env).error = none)
    (htx : ¬jsTrim (trRes env).text = [])
    (eo : List Char) (he : (enRes env o).error = some eo)
    (newId : List Char) (hins : env.insert (theRow env o) = .ok newId) :
    (process env o).1.error = none ∧
    (process env o).1.enhancedTranscript = (process env o).1.originalTranscript ∧
    (process env o).1.originalTranscript = (trRes env).text := by
  rw [process_success env o hu ht htx newId hins]
  refine ⟨rfl, ?_, rfl⟩
  show finalTranscript env o = (trRes env).text
  simp only [finalTranscript, he]

/-- C3 (witness): a healthy run whose generation provider errors completes
without error, falling back to the original transcript. -/
theorem C3_enhancement_failure_fallback_witness :
    (process envEnhFail optsOk).1.error = none ∧
    (process envEnhFail optsOk).1.enhancedTranscript =
      (process envEnhFail optsOk).1.originalTranscript ∧
    (process envEnhFail optsOk).1.originalTranscript = str "hello world today" :=
  C3_enhancement_failure_fallback envEnhFail optsOk (by decide) (by decide)
    (by decide) (str "gpt down") (by decide) (str "db-id-1") rfl

/-- C6: the persisted word count is the whitespace-delimited token count of
the final transcript, the character count its raw length, both computed from
the enhanced-or-fallback transcript (after the enhancement-failure fallback,
never from the pre-fallback value). -/
theorem C6_word_char_counts (env : ProviderEnv) (o : ProcessingOptions)
    (hu : (upRes env o).error = none)
    (ht : (trRes env).error = none)
    (htx : ¬jsTrim (trRes env).text = [])
    (newId : List Char) (hins : env.insert (theRow env o) = .ok newId) :
    (theRow env o).word_count = nonWsRuns (finalTranscript env o) ∧
    (theRow env o).character_count = (finalTranscript env o).length ∧
    (theRow env o).enhanced_transcript = finalTranscript env o ∧
    Event.insertCall (theRow env o) ∈ (process env o).2 ∧
    (process env o).1.wordCount = nonWsRuns (finalTranscript env o) ∧
    (process env o).1.characterCount = (finalTranscript env o).length ∧
    (∀ eo, (enRes env o).error = some eo → finalTranscript env o = (trRes env).text) := by
  refine ⟨pipelineWordCount_eq_nonWsRuns _, rfl, rfl, ?_, ?_, ?_, ?_⟩
  · rw [process_success env o hu ht htx newId hins]
    simp
  · rw [process_success env o hu ht htx newId hins]
    exact pipelineWordCount_eq_nonWsRuns _
  · rw [process_success env o hu ht htx newId hins]
  · intro eo he
    simp only [finalTranscript, he]

/-- C6 (witness): with a final transcript of "hello world foo" the persisted
word count is 3 and the character count 15. -/
theorem C6_word_char_counts_witness :
    (process envEnhFoo optsOk).1.enhancedTranscript = str "hello world foo" ∧
    (process envEnhFoo optsOk).1.wordCount = 3 ∧
    (process envEnhFoo optsOk).1.characterCount = 15 := by
  have h := C6_word_char_counts envEnhFoo optsOk (by decide) (by decide)
    (by decide) (str "db-id-1") rfl
  refine ⟨by decide, ?_, ?_⟩
  · rw [h.2.2.2.2.1]
    decide
  · rw [h.2.2.2.2.2.1]
    decide

/-- C2 (counterexample): a run invoked with `style = custom` and
`isPremium = false` does NOT fail validation before any provider call: the
storage upload and the transcription provider are each called once, the run
returns no error at all, and the custom-style request is silently degraded
to the original transcript. Only the generation provider goes uncalled. -/
theorem C2_premium_gate_counterexample :
    (process envOk optsCustom).1.error = none ∧
    countStorageCalls (process envOk optsCustom).2 = 1 ∧
    countTranscribeCalls (process envOk optsCustom).2 = 1 ∧
    countGenerationCalls (process envOk optsCustom).2 = 0 ∧
    (process envOk optsCustom).1.enhancedTranscript =
      (process envOk optsCustom).1.originalTranscript := by
  refine ⟨by decide, by decide, by decide, by decide, by decide⟩

/-- C2 (amended): with `style = custom` and no premium flag, the premium
validation happens inside the enhancement stage: the generation provider is
never called in any run, but the check is only reached after upload and
transcription have run, and it is treated as a non-fatal enhancement
failure, so when the other stages succeed the run completes without any
validation error, with the original transcript as the result. -/
theorem C2_premium_gate_amended (env : ProviderEnv) (o : ProcessingOptions)
    (hstyle : o.style = some .custom)
    (hprem : o.isPremium = some false ∨ o.isPremium = none) :
    countGenerationCalls (process env o).2 = 0 ∧
    ((upRes env o).error = none → (trRes env).error = none →
      ¬jsTrim (trRes env).text = [] →
      ∀ newId, env.insert (theRow env o) = .ok newId →
      ((process env o).1.error = none ∧
       (process env o).1.enhancedTranscript = (trRes env).text)) := by
  have hsty : (enOpts o).style = EnhancementStyle.custom := by
    simp [enOpts, hstyle]
  have hpre : (enOpts o).isPremium = false := by
    rcases hprem with h | h <;> simp [enOpts, h]
  constructor
  · have hen := enhance_custom_free_no_call env (trRes env).text (enOpts o) hsty hpre
    have htg := countGenerationCalls_transcribeGo env 3 0 none
    have hmapg : ∀ a : UEv, (match mapUploadEvent a with
        | Event.generationCall => true | _ => false) = false := by
      intro a
      cases a <;> rfl
    have htgm : ∀ x ∈ (transcribeRetryGo env 0 3 none).2.1,
        (match x with | Event.generationCall => true | _ => false) = false := by
      intro x hx
      have h1 : List.filter
          (fun e => match e with | Event.generationCall => true | _ => false)
          (transcribeRetryGo env 0 3 none).2.1 = [] :=
        List.length_eq_zero.mp htg
      rw [List.filter_eq_nil_iff] at h1
      simpa using h1 x hx
    rcases hu : (upRes env o).error with _ | e
    · rcases ht : (trRes env).error with _ | e
      · by_cases htx : jsTrim (trRes env).text = []
        · rw [process_tr_empty env o hu ht htx]
          simp [countGenerationCalls_append, countGenerationCalls_mapUpload,
            transcribeWithRetry, htg, countGenerationCalls]
          exact ⟨fun a _ => hmapg a, htgm⟩
        · rcases hins : env.insert (theRow env o) with e | newId
          · rw [process_savefail env o hu ht htx e hins]
            simp [countGenerationCalls_append, countGenerationCalls_mapUpload,
              transcribeWithRetry, htg, hen, countGenerationCalls]
            exact ⟨fun a _ => hmapg a, htgm⟩
          · rw [process_success env o hu ht htx newId hins]
            simp [countGenerationCalls_append, countGenerationCalls_mapUpload,
              transcribeWithRetry, htg, hen, countGenerationCalls]
            exact ⟨fun a _ => hmapg a, htgm⟩
      · rw [process_trfail env o hu e ht]
        simp [countGenerationCalls_append, countGenerationCalls_mapUpload,
          transcribeWithRetry, htg, countGenerationCalls]
        exact ⟨fun a _ => hmapg a, htgm⟩
    · rw [process_upfail env o e hu]
      simp [countGenerationCalls_append, countGenerationCalls_mapUpload,
        countGenerationCalls]
      exact fun a _ => hmapg a
  · intro hu ht htx newId hins
    rw [process_success env o hu ht htx newId hins]
    refine ⟨rfl, ?_⟩
    show finalTranscript env o = (trRes env).text
    have herr : (enRes env o).error =
        some (str "Custom prompts are only available for premium users") :=
      enhance_custom_free_error env (trRes env).text (enOpts o) hsty hpre htx
    simp only [finalTranscript, herr]

/-- C2 (amended, witness): the healthy custom-without-premium run makes zero
generation calls and completes with the original transcript. -/
theorem C2_premium_gate_amended_witness :
    countGenerationCalls (process envOk optsCustom).2 = 0 ∧
    (process envOk optsCustom).1.error = none ∧
    (process envOk optsCustom).1.enhancedTranscript = str "hello world today" := by
  have h := C2_premium_gate_amended envOk optsCustom rfl (Or.inl rfl)
  have h2 := h.2 (by decide) (by decide) (by decide) (str "db-id-1") rfl
  exact ⟨h.1, h2.1, h2.2⟩

/-- C4 (counterexample): a run that fails at the persistence stage returns a
result that carries both a structured error AND populated record fields
(audio URL and both transcripts), contradicting "never both". -/
theorem C4_result_exclusivity_counterexample :
    (process envSaveFail optsOk).1.error = some (str "db down") ∧
    (process envSaveFail optsOk).1.audioUrl ≠ [] ∧
    (process envSaveFail optsOk).1.originalTranscript ≠ [] ∧
    (process envSaveFail optsOk).1.enhancedTranscript ≠ [] := by
  refine ⟨by decide, by decide, by decide, by decide⟩

/-- C4 (amended): a result with no error carries the complete record
(nonempty audio URL, non-blank transcripts, counts derived from the final
transcript); a result carrying an error has zero word and character counts,
but may also retain the accumulated record fields. -/
theorem C4_result_exclusivity_amended (env : ProviderEnv) (o : ProcessingOptions) :
    ((process env o).1.error = none →
      ((process env o).1.audioUrl ≠ [] ∧
       ¬jsTrim (process env o).1.originalTranscript = [] ∧
       ¬jsTrim (process env o).1.enhancedTranscript = [] ∧
       (process env o).1.wordCount = nonWsRuns ((process env o).1.enhancedTranscript) ∧
       (process env o).1.characterCount = ((process env o).1.enhancedTranscript).length)) ∧
    ((process env o).1.error ≠ none →
      (process env o).1.wordCount = 0 ∧ (process env o).1.characterCount = 0) := by
  rcases hu : (upRes env o).error with _ | e
  · rcases ht : (trRes env).error with _ | e
    · by_cases htx : jsTrim (trRes env).text = []
      · rw [process_tr_empty env o hu ht htx]
        exact ⟨fun h => by simp at h, fun _ => ⟨rfl, rfl⟩⟩
      · rcases hins : env.insert (theRow env o) with e | newId
        · rw [process_savefail env o hu ht htx e hins]
          exact ⟨fun h => by simp at h, fun _ => ⟨rfl, rfl⟩⟩
        · rw [process_success env o hu ht htx newId hins]
          refine ⟨fun _ => ⟨upRes_url_ne_nil env o hu, htx,
            finalTranscript_not_blank env o htx,
            pipelineWordCount_eq_nonWsRuns _, rfl⟩, fun h => absurd rfl h⟩
    · rw [process_trfail env o hu e ht]
      exact ⟨fun h => by simp at h, fun _ => ⟨rfl, rfl⟩⟩
  · rw [process_upfail env o e hu]
    exact ⟨fun h => by simp at h, fun _ => ⟨rfl, rfl⟩⟩

/-- C4 (amended, witness): the healthy run carries the complete record; the
persistence-failure run carries an error and zero counts. -/
theorem C4_result_exclusivity_amended_witness :
    ((process envOk optsOk).1.error = none ∧
      (process envOk optsOk).1.audioUrl ≠ []) ∧
    ((process envSaveFail optsOk).1.error ≠ none ∧
      (process envSaveFail optsOk).1.wordCount = 0 ∧
      (process envSaveFail optsOk).1.characterCount = 0) := by
  refine ⟨⟨by decide, ?_⟩, ⟨by decide, ?_⟩⟩
  · exact ((C4_result_exclusivity_amended envOk optsOk).1 (by decide)).1
  · exact (C4_result_exclusivity_amended envSaveFail optsOk).2 (by decide)

/-- C10: whenever `process` returns a result carrying an error, the returned
word and character counts are 0 regardless of how far the run progressed,
while the audio URL, the transcripts, the detected language, the duration
and the total cost retain the values accumulated before the failure — so an
error result can carry a nonempty audio URL and nonempty transcripts. -/
theorem C10_error_result_fields (env : ProviderEnv) (o : ProcessingOptions)
    (h : (process env o).1.error ≠ none) :
    ((process env o).1.wordCount = 0 ∧ (process env o).1.characterCount = 0) ∧
    ((upRes env o).error = none →
      (process env o).1.audioUrl = (upRes env o).url) ∧
    ((upRes env o).error = none → (trRes env).error = none →
      ¬jsTrim (trRes env).text = [] →
      ((process env o).1.originalTranscript = (trRes env).text ∧
       (process env o).1.enhancedTranscript = finalTranscript env o ∧
       (process env o).1.language = finalLanguage env o ∧
       (process env o).1.duration = ((trRes env).audioLength).getD 0 ∧
       (process env o).1.totalCost = finalCost env o)) ∧
    (∃ (penv : ProviderEnv) (po : ProcessingOptions),
      (process penv po).1.error ≠ none ∧ (process penv po).1.audioUrl ≠ [] ∧
      (process penv po).1.originalTranscript ≠ [] ∧
      (process penv po).1.enhancedTranscript ≠ []) := by
  have hex : ∃ (penv : ProviderEnv) (po : ProcessingOptions),
      (process penv po).1.error ≠ none ∧ (process penv po).1.audioUrl ≠ [] ∧
      (process penv po).1.originalTranscript ≠ [] ∧
      (process penv po).1.enhancedTranscript ≠ [] :=
    ⟨envSaveFail, optsOk, by decide, by decide, by decide, by decide⟩
  rcases hu : (upRes env o).error with _ | e
  · rcases ht : (trRes env).error with _ | e
    · by_cases htx : jsTrim (trRes env).text = []
      · rw [process_tr_empty env o hu ht htx]
        exact ⟨⟨rfl, rfl⟩, fun _ => rfl, fun _ _ h3 => absurd htx h3, hex⟩
      · rcases hins : env.insert (theRow env o) with e | newId
        · rw [process_savefail env o hu ht htx e hins]
          exact ⟨⟨rfl, rfl⟩, fun _ => rfl,
            fun _ _ _ => ⟨rfl, rfl, rfl, rfl, rfl⟩, hex⟩
        · rw [process_success env o hu ht htx newId hins] at h
          exact absurd rfl h
    · rw [process_trfail env o hu e ht]
      exact ⟨⟨rfl, rfl⟩, fun _ => rfl, fun _ h2 _ => by simp [ht] at h2, hex⟩
  · rw [process_upfail env o e hu]
    exact ⟨⟨rfl, rfl⟩, fun h1 => by simp [hu] at h1,
      fun h1 _ _ => by simp [hu] at h1, hex⟩

/-- C10 (witness): a persistence-stage failure returns zero counts while
retaining the accumulated audio URL and transcripts. -/
theorem C10_error_result_fields_witness :
    (process envSaveFail optsOk).1.error ≠ none ∧
    (process envSaveFail optsOk).1.wordCount = 0 ∧
    (process envSaveFail optsOk).1.characterCount = 0 ∧
    (process envSaveFail optsOk).1.audioUrl = (upRes envSaveFail optsOk).url := by
  have h := C10_error_result_fields envSaveFail optsOk (by decide)
  exact ⟨by decide, h.1.1, h.1.2, h.2.1 (by decide)⟩

/-- C1: in every run in which the upload stage succeeded and a later fatal
stage (transcription, its empty-text validation, or persistence) failed, the
trace contains a compensating delete of the deterministic storage path
`{userId}/{recordingId}.m4a` (rebuilt from the upload URL; the recording id
must not contain a slash), and the result — including the surfaced stage
error — is unchanged by the outcome of that delete. -/
theorem C1_compensating_delete (env : ProviderEnv) (o : ProcessingOptions)
    (hrc : '/' ∉ o.recordingId)
    (hu : (upRes env o).error = none)
    (hfail : (process env o).1.error ≠ none) :
    (∃ ok, Event.deleteCall (expectedPath o) ok ∈ (process env o).2) ∧
    (∀ d, (process { env with deleteOk := d } o).1 = (process env o).1) := by
  have hpath := cleanup_path_eq env o hu hrc
  rcases ht : (trRes env).error with _ | e
  · by_cases htx : jsTrim (trRes env).text = []
    · constructor
      · refine ⟨env.deleteOk (expectedPath o), ?_⟩
        rw [process_tr_empty env o hu ht htx, hpath]
        simp
      · intro d
        rw [process_tr_empty env o hu ht htx,
          process_tr_empty { env with deleteOk := d } o hu ht htx]
        rfl
    · rcases hins : env.insert (theRow env o) with e | newId
      · constructor
        · refine ⟨env.deleteOk (expectedPath o), ?_⟩
          rw [process_savefail env o hu ht htx e hins, hpath]
          simp
        · intro d
          rw [process_savefail env o hu ht htx e hins,
            process_savefail { env with deleteOk := d } o hu ht htx e hins]
          rfl
      · rw [process_success env o hu ht htx newId hins] at hfail
        exact absurd rfl hfail
  · constructor
    · refine ⟨env.deleteOk (expectedPath o), ?_⟩
      rw [process_trfail env o hu e ht, hpath]
      simp
    · intro d
      rw [process_trfail env o hu e ht,
        process_trfail { env with deleteOk := d } o hu e ht]
      rfl

/-- C1 (witness): the persistence-failure run issues the compensating delete
at `user1/rec1.m4a` and surfaces the insert error whether or not the delete
succeeds. -/
theorem C1_compensating_delete_witness :
    (∃ ok, Event.deleteCall (expectedPath optsOk) ok ∈ (process envSaveFail optsOk).2) ∧
    (∀ d, (process { envSaveFail with deleteOk := d } optsOk).1 =
      (process envSaveFail optsOk).1) :=
  C1_compensating_delete envSaveFail optsOk (by decide) (by decide) (by decide)

/-- The empty `progressEntries` wrapper for `transcribeWithRetry`. -/
theorem progressEntries_transcribeWithRetry (env : ProviderEnv) (n : Nat) :
    progressEntries (transcribeWithRetry env n).2.1 = [] :=
  progressEntries_transcribeGo env n 0 none

/-- The value of `progressEntries` on a leading progress event. -/
theorem progressEntries_progress_cons (s : ProcessingStage) (p : ℚ)
    (l : List Event) :
    progressEntries (Event.progress s p :: l) = (s, p) :: progressEntries l := by
  simp [progressEntries, List.filterMap_cons]

/-- The value of `progressEntries` on a leading stage-completion event. -/
theorem progressEntries_stageDone_cons (s : ProcessingStage) (l : List Event) :
    progressEntries (Event.stageDone s :: l) = progressEntries l := by
  simp [progressEntries, List.filterMap_cons]

/-- The value of `progressEntries` on a leading insert event. -/
theorem progressEntries_insert_cons (row : RecordingRow) (l : List Event) :
    progressEntries (Event.insertCall row :: l) = progressEntries l := by
  simp [progressEntries, List.filterMap_cons]

/-- The value of `progressEntries` on no events. -/
theorem progressEntries_nil : progressEntries [] = [] := rfl

/-- C7: across every successful pipeline run, the percentage values
delivered to `onProgress` form a non-decreasing sequence whose final value
is 100, and every delivered (stage, percentage) entry lies inside the
reserved band of its stage (`getStageProgressRange`): Uploading 0-25,
Transcribing 25-60, Enhancing 60-90, Saving 90-100 — the Uploading entries
being the stage-internal percentages linearly remapped by
`percentage / 100 * 25`. -/
theorem C7_progress_monotone (env : ProviderEnv) (o : ProcessingOptions)
    (h : (process env o).1.error = none) :
    List.Chain' (· ≤ ·) (progressValues (process env o).2) ∧
    (progressValues (process env o).2).getLast? = some 100 ∧
    (∀ sp ∈ progressEntries (process env o).2,
      ((getStageProgressRange sp.1).1 : ℚ) ≤ sp.2 ∧
        sp.2 ≤ ((getStageProgressRange sp.1).2 : ℚ)) := by
  rcases hu : (upRes env o).error with _ | e
  · rcases ht : (trRes env).error with _ | e
    · by_cases htx : jsTrim (trRes env).text = []
      · rw [process_tr_empty env o hu ht htx] at h
        simp at h
      · rcases hins : env.insert (theRow env o) with e | newId
        · rw [process_savefail env o hu ht htx e hins] at h
          simp at h
        · -- the successful branch
          obtain ⟨m, hm, hprog⟩ :=
            uploadRetryGo_succ_progs env o.userId o.recordingId 3 0 none hu
          have hprog2 : uevProgs (uploadWithRetry env o.userId o.recordingId 3).2.1 =
              List.replicate m (0 : ℚ) ++ [100] := hprog
          have hE2 : progressEntries (process env o).2 =
              (ProcessingStage.uploading, (0 : ℚ)) ::
                (List.replicate m ((ProcessingStage.uploading, (0 : ℚ))) ++
                  (ProcessingStage.uploading, (25 : ℚ)) ::
                  (ProcessingStage.uploading, 25) :: (ProcessingStage.transcribing, 25) ::
                  (ProcessingStage.transcribing, 60) :: (ProcessingStage.enhancing, 60) ::
                  (ProcessingStage.enhancing, 90) :: (ProcessingStage.saving, 90) ::
                  (ProcessingStage.saving, 100) :: (ProcessingStage.complete, 100) :: []) := by
            rw [process_success env o hu ht htx newId hins]
            simp [progressEntries_append, progressEntries_mapUpload, hprog2,
              progressEntries_transcribeWithRetry, progressEntries_enhance,
              progressEntries_progress_cons, progressEntries_stageDone_cons,
              progressEntries_insert_cons, progressEntries_nil,
              List.map_append, List.map_replicate]
          have hV : progressValues (process env o).2 =
              List.replicate (m + 1) (0 : ℚ) ++
                [25, 25, 25, 60, 60, 90, 90, 100, 100] := by
            rw [progressValues_eq_entries, hE2]
            simp [List.map_append, List.map_replicate, List.replicate_succ]
          refine ⟨?_, ?_, ?_⟩
          · rw [hV]
            rw [List.chain'_append]
            refine ⟨chain'_le_replicate _ _, by norm_num [List.chain'_cons], ?_⟩
            intro x hx y hy
            rw [getLast?_replicate_succ] at hx
            simp at hx hy
            rw [← hx, ← hy]
            norm_num
          · rw [hV, List.getLast?_append_cons]
            rfl
          · intro sp hsp
            rw [hE2] at hsp
            simp only [List.mem_cons, List.mem_append, List.mem_replicate,
              List.not_mem_nil, or_false] at hsp
            rcases hsp with rfl | ⟨-, rfl⟩ | rfl | rfl | rfl | rfl | rfl | rfl | rfl | rfl | rfl <;>
              norm_num [getStageProgressRange]
    · rw [process_trfail env o hu e ht] at h
      simp at h
  · rw [process_upfail env o e hu] at h
    simp at h

/-- C7 (witness): the concrete healthy run delivers a non-decreasing
progress sequence ending at 100, with each entry in its stage band. -/
theorem C7_progress_monotone_witness :
    (process envOk optsOk).1.error = none ∧
    List.Chain' (· ≤ ·) (progressValues (process envOk optsOk).2) ∧
    (progressValues (process envOk optsOk).2).getLast? = some 100 :=
  ⟨by decide, (C7_progress_monotone envOk optsOk (by decide)).1,
    (C7_progress_monotone envOk optsOk (by decide)).2.1⟩

end VoiceFlow
